import Mathlib

/-!
# Verification of the MeshtasticSimulator routing core

This development gives a shallow embedding, in Lean, of the message/node/engine
core of the MeshtasticSimulator repository and proves (or refutes) a list of
behavioural claims about it.

The embedding follows the Python source closely:

* `node.py` — `Node` state, `receive_message_copy`, `get_routing_decision`,
  `_flooding_decision`, `_tree_based_decision`, `_are_in_same_subtree`,
  `_get_direct_children`, `_is_in_subtree`, `build_knowledge_tree_from_message`,
  `process_received_messages`.
* `message.py` and `simulator/message.py` — the two divergent `Message`
  classes; their operations are embedded separately as `V1` (flat `message.py`)
  and `V2` (`simulator/message.py`) functions.
* `MessageProcessor.py` — `_check_expired_messages`, `_check_stalled_messages`,
  `_get_node_transmissions`, `_detect_collisions`, `_process_receptions`.
* `simulator.py` — the inline neighbour filtering of `_process_transmissions`.
* `ComparisonPhaseManager.py` — `generate_comparison_messages`.

Python dictionaries are embedded as association lists, Python sets as lists
(only membership is ever relevant), Python `None` as `Option`, and the two
random draws (`random.choice`, `random.randint`) as explicit parameters
constrained to the ranges the library guarantees.
-/

namespace Meshtastic

/-! ## Knowledge-tree data model (`node.py`, `self.knowledge_tree`) -/

/-- One entry of a node's knowledge tree: the Python dict
`{'parent': …, 'distance': …, 'learned_frame': …, 'next_hop': …}`. -/
structure KEntry where
  parent : Nat
  distance : Nat
  learnedFrame : Nat
  nextHop : Option Nat
deriving DecidableEq, Repr

/-- `knowledge_tree`: a Python dict `{destination: [entries]}`, embedded as an
association list in insertion order. -/
abbrev KTree := List (Nat × List KEntry)

/-- Dict lookup `knowledge_tree[d]` (first matching key), `[]` when absent. -/
def kLookup (t : KTree) (d : Nat) : List KEntry :=
  match t.find? (fun kv => kv.1 == d) with
  | some kv => kv.2
  | none => []

/-- Python `d in knowledge_tree`. -/
def kHasKey (t : KTree) (d : Nat) : Bool :=
  t.any (fun kv => kv.1 == d)

/-- The effect of
`if d not in tree: tree[d] = []` followed by `tree[d].append(e)`. -/
def kAppend (t : KTree) (d : Nat) (e : KEntry) : KTree :=
  if kHasKey t d then
    t.map (fun kv => if kv.1 == d then (kv.1, kv.2 ++ [e]) else kv)
  else
    t ++ [(d, [e])]

/-- The parents of all entries stored under `x`
(`[entry['parent'] for entry in knowledge_tree[x]]`). -/
def parentsOf (t : KTree) (x : Nat) : List Nat :=
  (kLookup t x).map (·.parent)

/-- Every node id that can ever enter the `_is_in_subtree` queue by expansion:
the keys of the tree together with all stored parents.  Used only as a
termination measure for the breadth-first search. -/
def subtreeUniverse (t : KTree) : List Nat :=
  t.map Prod.fst ++ (t.map (fun kv => kv.2.map (·.parent))).flatten

/-! ## Message data model -/

/-- The state of a `Message` object (common field layout of `message.py` and
`simulator/message.py`). -/
structure MsgState where
  id : Nat
  source : Nat
  target : Nat
  hopLimit : Nat
  startFrame : Nat
  isActive : Bool
  isCompleted : Bool
  targetReceived : Bool
  completionReason : Option String
  status : String
  paths : List (List Nat)
deriving DecidableEq, Repr

/-- `message.py` (flat variant), `Message.target_reached`:
sets `target_received` and immediately rewrites `status` to `"SUCCESS"`. -/
def targetReachedV1 (m : MsgState) : MsgState :=
  { m with targetReceived := true, status := "SUCCESS" }

/-- `message.py` (flat variant), `Message.complete_message`:
sets the completion flags; `status` is left untouched. -/
def completeMessageV1 (reason : String) (m : MsgState) : MsgState :=
  if reason == "reached_target" then
    { m with targetReceived := true, isCompleted := true, isActive := false,
             completionReason := some reason }
  else if reason == "hop_limit_exceeded" then
    { m with isCompleted := true, isActive := false,
             completionReason := some reason }
  else m

/-- `simulator/message.py`, `Message.target_reached`:
sets `target_received` only; `status` is decided at completion time. -/
def targetReachedV2 (m : MsgState) : MsgState :=
  { m with targetReceived := true }

/-- `simulator/message.py`, `Message.complete_message`:
completes the message and finalises `status` from `target_received`. -/
def completeMessageV2 (reason : String) (m : MsgState) : MsgState :=
  { m with isCompleted := true, isActive := false,
           completionReason := some reason,
           status := if m.targetReceived then "SUCCESS" else "FAILED" }

/-- A fresh message as both constructors initialise it (before any event):
inactive, not completed, `status = "FAILED"`. -/
def freshMsg (mid src tgt hopLimit startFrame : Nat) : MsgState :=
  { id := mid, source := src, target := tgt, hopLimit := hopLimit,
    startFrame := startFrame, isActive := false, isCompleted := false,
    targetReceived := false, completionReason := none,
    status := "FAILED", paths := [] }

/-! ## Message store

Python `Message` objects are shared by reference between nodes and the
`messages` dictionaries of the phase managers; the embedding keeps all message
state in one store, addressed by message id, and lets outbox/inbox records
carry the id. -/

abbrev MsgStore := List MsgState

def msGet? (σ : MsgStore) (mid : Nat) : Option MsgState :=
  σ.find? (fun m => m.id == mid)

/-- Total read, with a junk default (theorems add presence hypotheses). -/
def msGetD (σ : MsgStore) (mid : Nat) : MsgState :=
  (msGet? σ mid).getD (freshMsg mid 0 0 0 0)

/-- Mutating the shared object: rewrite every stored copy with that id. -/
def msUpdate (σ : MsgStore) (mid : Nat) (f : MsgState → MsgState) : MsgStore :=
  σ.map (fun m => if m.id == mid then f m else m)

/-! ## Node state (`node.py`) -/

/-- An outbox (`pending_messages`) item.  The source appends bare
`(message, path)` pairs at admission ("old format"), while
`process_received_messages` appends `(message, path, local_hop_limit)` triples
("new format"); `budget := none` encodes the old format. -/
structure OutEntry where
  mid : Nat
  path : List Nat
  budget : Option Int
deriving DecidableEq, Repr

/-- An inbox (`received_messages`) item `(message, sender_id, sender_path)`. -/
structure InEntry where
  mid : Nat
  sender : Nat
  senderPath : List Nat
deriving DecidableEq, Repr

/-- The per-node state of `node.py`'s `Node` (display-only fields omitted). -/
structure NodeState where
  id : Nat
  neighbors : List Nat
  pending : List OutEntry
  received : List InEntry
  receivedMessageIds : List Nat
  seenMessageCopies : List (Nat × Nat)
  collision : Bool
  sending : Bool
  receiving : Bool
  knowledgeTree : KTree
deriving DecidableEq, Repr

/-- `Node.receive_message_copy`: accept iff the message id was never accepted
before and this `(id, sender)` copy was never seen; on accept, record both and
push onto `received_messages`. -/
def receiveMessageCopy (n : NodeState) (m : MsgState) (senderId : Nat)
    (senderPath : List Nat) : Bool × NodeState :=
  if m.id ∈ n.receivedMessageIds then (false, n)
  else if (m.id, senderId) ∈ n.seenMessageCopies then (false, n)
  else
    (true,
     { n with
       seenMessageCopies := n.seenMessageCopies ++ [(m.id, senderId)],
       received := n.received ++ [⟨m.id, senderId, senderPath⟩],
       receivedMessageIds := n.receivedMessageIds ++ [m.id] })

/-- `Node._flooding_decision`: pure flooding — always the full neighbour list. -/
def floodingDecision (n : NodeState) (_m : MsgState) (_hop : Int) : List Nat :=
  n.neighbors

/-- `Node._get_direct_children`: destinations having some entry with
`parent = self.id`, first occurrence order, deduplicated. -/
def getDirectChildren (n : NodeState) : List Nat :=
  n.knowledgeTree.foldl
    (fun acc kv =>
      if kv.2.any (fun e => e.parent == n.id) && !(acc.contains kv.1) then
        acc ++ [kv.1]
      else acc) []

/-- Filtering by a stronger predicate yields a list no longer. -/
theorem filter_length_mono {U : List Nat} {p q : Nat → Bool}
    (h : ∀ x, p x = true → q x = true) :
    (U.filter p).length ≤ (U.filter q).length := by
  induction U with
  | nil => simp
  | cons a tl ih =>
    by_cases hp : p a = true
    · simp [List.filter_cons, hp, h a hp]
      omega
    · simp only [List.filter_cons]
      rw [Bool.not_eq_true] at hp
      rw [hp]
      cases hq : q a <;> simp <;> omega

/-- `List.contains` in terms of propositional membership. -/
theorem contains_eq_decide_mem (l : List Nat) (a : Nat) :
    l.contains a = decide (a ∈ l) := by
  induction l with
  | nil => rfl
  | cons b tl ih => simp [List.contains_cons, ih, List.mem_cons]

/-- Marking one more node visited never lengthens the unvisited part of the
universe. -/
theorem filterNotMemLengthLe (U v : List Nat) (c : Nat) :
    (U.filter (fun x => !((c :: v).contains x))).length
      ≤ (U.filter (fun x => !(v.contains x))).length := by
  apply filter_length_mono
  intro x hx
  simp only [contains_eq_decide_mem, Bool.not_eq_true', decide_eq_false_iff_not,
    List.mem_cons, not_or] at hx ⊢
  exact hx.2

/-- Marking a fresh universe member visited strictly shrinks the unvisited
part of the universe. -/
theorem filterNotMemLengthLt {U v : List Nat} {c : Nat}
    (hU : c ∈ U) (hv : c ∉ v) :
    (U.filter (fun x => !((c :: v).contains x))).length
      < (U.filter (fun x => !(v.contains x))).length := by
  induction U with
  | nil => cases hU
  | cons a tl ih =>
    by_cases hac : a = c
    · subst hac
      have h1 : (!((a :: v).contains a)) = false := by
        simp [contains_eq_decide_mem]
      have h2 : (!(v.contains a)) = true := by
        simp [contains_eq_decide_mem, hv]
      simp only [List.filter_cons, h1, h2]
      have := filterNotMemLengthLe tl v a
      simp only [Bool.false_eq_true, if_false, if_true, List.length_cons]
      omega
    · have hc : c ∈ tl := by
        rcases List.mem_cons.mp hU with h | h
        · exact absurd h.symm hac
        · exact h
      have hmemiff : (a ∈ c :: v) ↔ (a ∈ v) := by
        simp [List.mem_cons, hac]
      have hpred : (!((c :: v).contains a)) = (!(v.contains a)) := by
        simp only [contains_eq_decide_mem, decide_eq_decide.mpr hmemiff]
      simp only [List.filter_cons, hpred]
      cases hq : (!(v.contains a)) with
      | false => simpa [hq] using ih hc
      | true => simpa [hq] using Nat.succ_lt_succ (ih hc)

/-- A node outside the universe has no stored parents. -/
theorem parentsOf_eq_nil_of_not_univ {t : KTree} {c : Nat}
    (h : c ∉ subtreeUniverse t) : parentsOf t c = [] := by
  unfold parentsOf kLookup
  cases hf : t.find? (fun kv => kv.1 == c) with
  | none => simp
  | some kv =>
    exfalso
    apply h
    have hmem := List.mem_of_find?_eq_some hf
    have hpred : kv.1 = c := by simpa using List.find?_some hf
    unfold subtreeUniverse
    exact List.mem_append_left _ (hpred ▸ List.mem_map_of_mem Prod.fst hmem)

/-- Lexicographic helper: first component no larger, second strictly smaller. -/
theorem lex_of_le_of_lt {a' a b' b : Nat} (h1 : a' ≤ a) (h2 : b' < b) :
    Prod.Lex (· < ·) (· < ·) (a', b') (a, b) := by
  rcases Nat.lt_or_ge a' a with h | h
  · exact Prod.Lex.left _ _ h
  · have : a' = a := Nat.le_antisymm h1 h
    subst this
    exact Prod.Lex.right _ h2

/-- The breadth-first search loop of `Node._is_in_subtree`: pop from the front,
skip visited nodes, succeed on the subtree root, never expand `self.id`,
otherwise push all not-yet-visited parents of the current node. -/
def bfsReach (t : KTree) (selfId root : Nat) :
    (visited : List Nat) → (queue : List Nat) → Bool
  | _, [] => false
  | visited, current :: rest =>
    if current ∈ visited then
      bfsReach t selfId root visited rest
    else if current = root then
      true
    else if current = selfId then
      bfsReach t selfId root (current :: visited) rest
    else
      bfsReach t selfId root (current :: visited)
        (rest ++ (parentsOf t current).filter (fun p => !((current :: visited).contains p)))
termination_by visited queue =>
  (((subtreeUniverse t).filter (fun x => !(visited.contains x))).length, queue.length)
decreasing_by
  · exact Prod.Lex.right _ (Nat.lt_succ_self _)
  · exact lex_of_le_of_lt (filterNotMemLengthLe _ _ _) (Nat.lt_succ_self _)
  · by_cases hU : current ∈ subtreeUniverse t
    · exact Prod.Lex.left _ _ (filterNotMemLengthLt hU ‹¬current ∈ visited›)
    · have hpar : parentsOf t current = [] := parentsOf_eq_nil_of_not_univ hU
      have hflt : ((subtreeUniverse t).filter
            (fun x => !((current :: visited).contains x))).length
          = ((subtreeUniverse t).filter (fun x => !(visited.contains x))).length := by
        apply congrArg List.length
        apply List.filter_congr
        intro x hx
        have hne : x ≠ current := fun h => hU (h ▸ hx)
        have hmemiff : (x ∈ current :: visited) ↔ (x ∈ visited) := by
          simp [List.mem_cons, hne]
        simp only [contains_eq_decide_mem, decide_eq_decide.mpr hmemiff]
      rw [hpar]
      simp only [List.filter_nil, List.append_nil]
      rw [hflt]
      exact Prod.Lex.right _ (Nat.lt_succ_self _)

/-- `Node._is_in_subtree`: the subtree root is in its own subtree; a node
absent from the knowledge tree is in no other subtree; otherwise run the
breadth-first search over parent links starting from `node`. -/
def isInSubtree (n : NodeState) (node subtreeRoot : Nat) : Bool :=
  if node = subtreeRoot then true
  else if !(kHasKey n.knowledgeTree node) then false
  else bfsReach n.knowledgeTree n.id subtreeRoot [] [node]

/-- `Node._are_in_same_subtree`: some direct child's subtree contains both. -/
def areInSameSubtree (n : NodeState) (source target : Nat) : Bool :=
  (getDirectChildren n).any
    (fun child => isInSubtree n source child && isInSubtree n target child)

/-- `Node._tree_based_decision`: flood unless both endpoints are known and lie
in the same direct-child subtree, in which case suppress. -/
def treeBasedDecision (n : NodeState) (m : MsgState) (_hop : Int) : List Nat :=
  if !(kHasKey n.knowledgeTree m.source && kHasKey n.knowledgeTree m.target) then
    n.neighbors
  else if areInSameSubtree n m.source m.target then
    []
  else
    n.neighbors

/-- `Node.get_routing_decision`: targets never forward; otherwise dispatch on
the algorithm mode. -/
def getRoutingDecision (n : NodeState) (m : MsgState) (hop : Int)
    (algorithmMode : String) : List Nat :=
  if m.target == n.id then []
  else if algorithmMode == "flooding" then floodingDecision n m hop
  else treeBasedDecision n m hop

/-- The entry written by one iteration of the learning loop of
`Node.build_knowledge_tree_from_message`, where `j` is the node's index in the
path (`my_index`). -/
def mkTreeEntry (selfId : Nat) (p : List Nat) (j fr i : Nat) : KEntry :=
  { parent := if j - i = 1 then selfId else p.getD (i + 1) 0,
    distance := j - i,
    learnedFrame := fr,
    nextHop := if 0 < j then some (p.getD (j - 1) 0) else none }

/-- `Node.build_knowledge_tree_from_message`: learn one entry per path position
strictly before the node's own (first) position; paths shorter than two nodes,
or not containing the node at all, leave the tree unchanged. -/
def buildKnowledgeTreeFromMessage (selfId : Nat) (t : KTree) (path : List Nat)
    (currentFrame : Nat) : KTree :=
  if path.length < 2 then t
  else if selfId ∈ path then
    let j := path.indexOf selfId
    (List.range j).foldl
      (fun acc i => kAppend acc (path.getD i 0) (mkTreeEntry selfId path j currentFrame i))
      t
  else t

/-- `Message.create_new_copy` (shared by both message variants): extend the
sender's path with the receiver and record it on the message if new. -/
def createNewCopy (σ : MsgStore) (mid _senderId receiverId : Nat)
    (senderPath : List Nat) : MsgStore × List Nat :=
  let newPath := senderPath ++ [receiverId]
  (msUpdate σ mid (fun m =>
      if newPath ∈ m.paths then m else { m with paths := m.paths ++ [newPath] }),
   newPath)

/-- One iteration of the loop body of `Node.process_received_messages`
(with the `simulator/message.py` message operations). -/
def processOneReceived (frame : Nat) (st : MsgStore × NodeState × List (Nat × List Nat))
    (item : InEntry) : MsgStore × NodeState × List (Nat × List Nat) :=
  let (σ, n, processed) := st
  let (σ₁, newPath) := createNewCopy σ item.mid item.sender n.id item.senderPath
  let n₁ := { n with
    knowledgeTree := buildKnowledgeTreeFromMessage n.id n.knowledgeTree newPath frame }
  let hopsUsed : Int := (newPath.length : Int) - 1
  let localHopLimit : Int := ((msGetD σ₁ item.mid).hopLimit : Int) - hopsUsed
  let σ₂ :=
    if (msGetD σ₁ item.mid).target = n₁.id then
      if !(msGetD σ₁ item.mid).targetReceived then
        msUpdate σ₁ item.mid targetReachedV2
      else σ₁
    else σ₁
  if localHopLimit ≤ 0 then
    let σ₃ :=
      if !(msGetD σ₂ item.mid).isCompleted then
        msUpdate σ₂ item.mid (completeMessageV2 "hop_limit_exceeded")
      else σ₂
    (σ₃, n₁, processed ++ [(item.mid, newPath)])
  else
    (σ₂,
     { n₁ with pending := n₁.pending ++ [⟨item.mid, newPath, some localHopLimit⟩] },
     processed ++ [(item.mid, newPath)])

/-- `Node.process_received_messages`: fold the loop body over the frame inbox. -/
def processReceivedMessages (σ : MsgStore) (n : NodeState) (frame : Nat) :
    MsgStore × NodeState × List (Nat × List Nat) :=
  n.received.foldl (processOneReceived frame) (σ, n, [])

/-! ## The MessageProcessor engine (`MessageProcessor.py`) -/

/-- A transmission record `(sender_id, receiver_id, message, current_path,
local_hop_limit)`. -/
structure TransRecord where
  sender : Nat
  receiver : Nat
  mid : Nat
  path : List Nat
  hopLimit : Int
deriving DecidableEq, Repr

/-- The algorithm actually used for a transmission:
the learning phase always floods, the comparison phase uses the processor's
configured mode (`_get_node_transmissions`). -/
def algorithmFor (processorMode messageType : String) : String :=
  if messageType == "learning" then "flooding" else processorMode

/-- The records `_get_node_transmissions` emits for one outbox entry:
one per receiver chosen by the routing decision. -/
def transmissionsForEntry (n : NodeState) (m : MsgState) (path : List Nat)
    (localHopLimit : Int) (algorithmMode : String) : List TransRecord :=
  (getRoutingDecision n m localHopLimit algorithmMode).map
    (fun neighborId => ⟨n.id, neighborId, m.id, path, localHopLimit⟩)

/-- The effective hop budget of an outbox entry: explicit for the new 3-tuple
format, reconstructed from the path for the old 2-tuple format. -/
def effBudget (σ : MsgStore) (e : OutEntry) : Int :=
  match e.budget with
  | some b => b
  | none => ((msGetD σ e.mid).hopLimit : Int) - ((e.path.length : Int) - 1)

/-- The per-node loop of `_check_expired_messages`: sequentially examine each
outbox entry; an entry with exhausted budget whose message is not (yet)
completed completes the message with reason `hop_limit_exceeded` and is
removed; every other entry is kept. -/
def sweepEntries (σ : MsgStore) : List OutEntry → MsgStore × List OutEntry
  | [] => (σ, [])
  | e :: rest =>
    if effBudget σ e ≤ 0 ∧ !(msGetD σ e.mid).isCompleted then
      sweepEntries (msUpdate σ e.mid (completeMessageV2 "hop_limit_exceeded")) rest
    else
      let (σ', rest') := sweepEntries σ rest
      (σ', e :: rest')

/-- `_check_expired_messages` over the whole network (without the stalled
check, which the source performs afterwards): sweep every node in order. -/
def checkExpired (σ : MsgStore) : List NodeState → MsgStore × List NodeState
  | [] => (σ, [])
  | n :: rest =>
    let (σ₁, pending') := sweepEntries σ n.pending
    let (σ₂, rest') := checkExpired σ₁ rest
    (σ₂, { n with pending := pending' } :: rest')

/-- Whether any node holds an outbox entry for the given message
(`_check_stalled_messages`'s inner search). -/
def hasPendingAnywhere (nodes : List NodeState) (mid : Nat) : Bool :=
  nodes.any (fun n => n.pending.any (fun e => e.mid == mid))

/-- `_check_stalled_messages`: every active, not-completed message without an
outbox entry anywhere is completed with reason `hop_limit_exceeded`. -/
def checkStalled (σ : MsgStore) (nodes : List NodeState) : MsgStore :=
  σ.map (fun m =>
    if m.isActive && !m.isCompleted && !(hasPendingAnywhere nodes m.id) then
      completeMessageV2 "hop_limit_exceeded" m
    else m)

/-- The number of transmission records addressed to a receiver in this frame. -/
def countTo (queue : List TransRecord) (r : Nat) : Nat :=
  (queue.filter (fun tr => tr.receiver == r)).length

/-- The receivers of the queue, first occurrence order, deduplicated —
the key set of `transmissions_by_receiver` in `_detect_collisions`. -/
def queueReceivers (queue : List TransRecord) : List Nat :=
  queue.foldl (fun acc tr => if tr.receiver ∈ acc then acc else acc ++ [tr.receiver]) []

/-- The collision victims of `_detect_collisions`: receivers addressed by more
than one record. -/
def collisionNodes (queue : List TransRecord) : List Nat :=
  (queueReceivers queue).filter (fun r => 1 < countTo queue r)

/-! ## Network state -/

abbrev Net := List NodeState

def netGetD (net : Net) (nid : Nat) : NodeState :=
  (net.find? (fun n => n.id == nid)).getD
    { id := nid, neighbors := [], pending := [], received := [],
      receivedMessageIds := [], seenMessageCopies := [], collision := false,
      sending := false, receiving := false, knowledgeTree := [] }

def netUpdate (net : Net) (nid : Nat) (f : NodeState → NodeState) : Net :=
  net.map (fun n => if n.id == nid then f n else n)

/-- Flag-setting side of `_detect_collisions`: mark every collision victim. -/
def markCollisions (net : Net) (queue : List TransRecord) : Net :=
  (collisionNodes queue).foldl
    (fun acc r => netUpdate acc r (fun n => { n with collision := true })) net

/-- `_process_receptions`: offer every record to its receiver unless the
receiver is a collision victim; collect the accepted `(sender, receiver, mid)`
triples. -/
def processReceptions (σ : MsgStore) (net : Net) (queue : List TransRecord)
    (collisions : List Nat) : Net × List (Nat × Nat × Nat) :=
  queue.foldl
    (fun (st : Net × List (Nat × Nat × Nat)) tr =>
      let (acc, successes) := st
      if tr.receiver ∈ collisions then (acc, successes)
      else
        let node := netGetD acc tr.receiver
        let (accepted, node') := receiveMessageCopy node (msGetD σ tr.mid) tr.sender tr.path
        (netUpdate acc tr.receiver (fun _ => node'),
         if accepted then successes ++ [(tr.sender, tr.receiver, tr.mid)] else successes))
    (net, [])

/-! ## The legacy engine's inline neighbour filter (`simulator.py`,
`_process_transmissions`) -/

/-- The `valid_neighbors` computation of `simulator.py`: skip only the
immediate previous hop `current_path[-2]`. -/
def simValidNeighbors (neighbors : List Nat) (currentPath : List Nat) : List Nat :=
  neighbors.filter
    (fun neighborId =>
      !(decide (1 < currentPath.length) &&
        neighborId == currentPath.getD (currentPath.length - 2) 0))

/-! ## Comparison-phase message generation
(`ComparisonPhaseManager.generate_comparison_messages` together with the
`simulator/message.py` constructor) -/

/-- The hop limit chosen by `simulator/message.py`'s constructor:
the size table when a (truthy) `network_size` is passed, 4 otherwise. -/
def hopLimitFor (networkSize : Option Nat) : Nat :=
  match networkSize with
  | none => 4
  | some s =>
      if s = 0 then 4
      else if s = 10 then 4
      else if s = 50 then 8
      else if s = 100 then 12
      else 6

/-- `Message.__init__` of `simulator/message.py`; `ctorDraw` is the
`random.randint(1, max_start_frame)` draw made by the constructor. -/
def messageInit (mid src tgt _totalFrames : Nat) (networkSize : Option Nat)
    (ctorDraw : Nat) : MsgState :=
  let hopLimit := hopLimitFor networkSize
  freshMsg mid src tgt hopLimit ctorDraw

/-- One message generated by `generate_comparison_messages`: the constructor is
called *without* a network size, and the constructor's start frame is then
overwritten with `random.randint(1, total_frames - 4)` (`startDraw`).
`nodeIds` is the node-id population the endpoints were sampled from; it is
passed only to document that the generator never consults it for the hop
limit. -/
def generateComparisonMessage (_nodeIds : List Nat) (mid src tgt totalFrames : Nat)
    (ctorDraw startDraw : Nat) : MsgState :=
  { messageInit mid src tgt totalFrames none ctorDraw with startFrame := startDraw }

/-! ## Specification-side subtree membership (for claim C1)

These definitions follow the *specification's words*, to be compared with the
code's breadth-first search: a direct child of `n` is a destination having some
knowledge-tree entry with `parent = n.id`; a node belongs to the subtree of a
direct child `c` when it is connected to `c` by a chain of parent links that
does not pass through `n`. -/

/-- Chains of parent links from `x` to `c` in which no link departs from
`selfId` (the chain never passes through the node itself). -/
inductive ParentReach (t : KTree) (selfId : Nat) : Nat → Nat → Prop
  | refl (x : Nat) : ParentReach t selfId x x
  | step {x y c : Nat} (hx : x ≠ selfId) (hy : y ∈ parentsOf t x)
      (h : ParentReach t selfId y c) : ParentReach t selfId x c

/-- A destination having some knowledge-tree entry with `parent = selfId`. -/
def DirectChildSpec (t : KTree) (selfId c : Nat) : Prop :=
  ∃ kv ∈ t, kv.1 = c ∧ ∃ e ∈ kv.2, e.parent = selfId

/-- The suppression condition of the specification: a single direct child
whose subtree contains both endpoints. -/
def SameSubtreeSpec (t : KTree) (selfId s g : Nat) : Prop :=
  ∃ c, DirectChildSpec t selfId c ∧
    ParentReach t selfId s c ∧ ParentReach t selfId g c

/-- A node with stored parents is a key of the tree. -/
theorem kHasKey_of_parentsOf_ne_nil {t : KTree} {x : Nat}
    (h : parentsOf t x ≠ []) : kHasKey t x = true := by
  unfold parentsOf kLookup at h
  cases hf : t.find? (fun kv => kv.1 == x) with
  | none => rw [hf] at h; simp at h
  | some kv =>
    have hmem := List.mem_of_find?_eq_some hf
    have hpred := List.find?_some hf
    unfold kHasKey
    rw [List.any_eq_true]
    exact ⟨kv, hmem, by simpa using hpred⟩

/-- Transitivity of chains. -/
theorem ParentReach.trans {t : KTree} {selfId a b c : Nat}
    (h1 : ParentReach t selfId a b) (h2 : ParentReach t selfId b c) :
    ParentReach t selfId a c := by
  induction h1 with
  | refl => exact h2
  | step hx hy _ ih => exact ParentReach.step hx hy (ih h2)

/-- Soundness of the search loop: if every queued node is chain-reachable from
`start`, a `true` result yields a chain from `start` to the root. -/
theorem bfsReach_sound (t : KTree) (selfId root start : Nat) :
    ∀ visited queue,
      (∀ q ∈ queue, ParentReach t selfId start q) →
      bfsReach t selfId root visited queue = true →
      ParentReach t selfId start root := by
  intro visited queue
  induction visited, queue using bfsReach.induct t selfId root with
  | case1 visited =>
    intro _ hrun
    rw [bfsReach] at hrun
    exact absurd hrun (by simp)
  | case2 visited current rest hmem ih =>
    intro hq hrun
    rw [bfsReach, if_pos hmem] at hrun
    exact ih (fun q hq' => hq q (List.mem_cons_of_mem _ hq')) hrun
  | case3 visited rest hnv =>
    intro hq _
    exact hq root (List.mem_cons_self _ _)
  | case4 visited rest hnv hne ih =>
    intro hq hrun
    rw [bfsReach, if_neg hnv, if_neg hne, if_pos rfl] at hrun
    exact ih (fun q hq' => hq q (List.mem_cons_of_mem _ hq')) hrun
  | case5 visited current rest hnv hnr hns ih =>
    intro hq hrun
    rw [bfsReach, if_neg hnv, if_neg hnr, if_neg hns] at hrun
    apply ih _ hrun
    intro q hq'
    rcases List.mem_append.mp hq' with h | h
    · exact hq q (List.mem_cons_of_mem _ h)
    · have hp : q ∈ parentsOf t current := List.mem_of_mem_filter h
      exact (hq current (List.mem_cons_self _ _)).trans
        (ParentReach.step hns hp (ParentReach.refl q))

/-- No chain can leave a parent-closed set that excludes the chain's end. -/
theorem chain_refuted_of_closed (t : KTree) (selfId : Nat) (visited : List Nat)
    (hinv : ∀ v ∈ visited, v ≠ selfId → ∀ p ∈ parentsOf t v, p ∈ visited) :
    ∀ x root, ParentReach t selfId x root → x ∈ visited → root ∉ visited → False := by
  intro x root hchain
  induction hchain with
  | refl z => intro h1 h2; exact h2 h1
  | step hne hp _ ih =>
    intro hxv hrv
    exact ih (hinv _ hxv hne _ hp) hrv

/-- Completeness of the search loop: a `false` result refutes every chain from
a queued or visited node, provided the visited set is closed as the loop
maintains it. -/
theorem bfsReach_complete (t : KTree) (selfId root : Nat) :
    ∀ visited queue,
      bfsReach t selfId root visited queue = false →
      root ∉ visited →
      (∀ v ∈ visited, v ≠ selfId → ∀ p ∈ parentsOf t v, p ∈ visited ∨ p ∈ queue) →
      ∀ x, (x ∈ visited ∨ x ∈ queue) → ¬ ParentReach t selfId x root := by
  intro visited queue
  induction visited, queue using bfsReach.induct t selfId root with
  | case1 visited =>
    intro _ hroot hinv x hx hchain
    rcases hx with hx | hx
    · refine chain_refuted_of_closed t selfId visited ?_ x root hchain hx hroot
      intro v hv hvs p hp
      rcases hinv v hv hvs p hp with h | h
      · exact h
      · cases h
    · cases hx
  | case2 visited current rest hmem ih =>
    intro hrun hroot hinv x hx
    rw [bfsReach, if_pos hmem] at hrun
    apply ih hrun hroot
    · intro v hv hvs p hp
      rcases hinv v hv hvs p hp with h | h
      · exact Or.inl h
      · rcases List.mem_cons.mp h with h | h
        · exact Or.inl (h ▸ hmem)
        · exact Or.inr h
    · rcases hx with hx | hx
      · exact Or.inl hx
      · rcases List.mem_cons.mp hx with h | h
        · exact Or.inl (h ▸ hmem)
        · exact Or.inr h
  | case3 visited rest hnv =>
    intro hrun
    rw [bfsReach, if_neg hnv, if_pos rfl] at hrun
    cases hrun
  | case4 visited rest hnv hne ih =>
    intro hrun hroot hinv x hx
    rw [bfsReach, if_neg hnv, if_neg hne, if_pos rfl] at hrun
    apply ih hrun
    · intro h
      rcases List.mem_cons.mp h with h | h
      · exact hne h.symm
      · exact hroot h
    · intro v hv hvs p hp
      rcases List.mem_cons.mp hv with h | h
      · exact absurd h hvs
      · rcases hinv v h hvs p hp with h' | h'
        · exact Or.inl (List.mem_cons_of_mem _ h')
        · rcases List.mem_cons.mp h' with h' | h'
          · exact Or.inl (h' ▸ List.mem_cons_self _ _)
          · exact Or.inr h'
    · rcases hx with hx | hx
      · exact Or.inl (List.mem_cons_of_mem _ hx)
      · rcases List.mem_cons.mp hx with h | h
        · exact Or.inl (h ▸ List.mem_cons_self _ _)
        · exact Or.inr h
  | case5 visited current rest hnv hnr hns ih =>
    intro hrun hroot hinv x hx
    rw [bfsReach, if_neg hnv, if_neg hnr, if_neg hns] at hrun
    apply ih hrun
    · intro h
      rcases List.mem_cons.mp h with h | h
      · exact hnr h.symm
      · exact hroot h
    · intro v hv hvs p hp
      rcases List.mem_cons.mp hv with h | h
      · subst h
        by_cases hpv : p ∈ v :: visited
        · exact Or.inl hpv
        · refine Or.inr (List.mem_append.mpr (Or.inr ?_))
          refine List.mem_filter.mpr ⟨hp, ?_⟩
          simp only [contains_eq_decide_mem, Bool.not_eq_true', decide_eq_false_iff_not]
          exact hpv
      · rcases hinv v h hvs p hp with h' | h'
        · exact Or.inl (List.mem_cons_of_mem _ h')
        · rcases List.mem_cons.mp h' with h' | h'
          · exact Or.inl (h' ▸ List.mem_cons_self _ _)
          · exact Or.inr (List.mem_append.mpr (Or.inl h'))
    · rcases hx with hx | hx
      · exact Or.inl (List.mem_cons_of_mem _ hx)
      · rcases List.mem_cons.mp hx with h | h
        · exact Or.inl (h ▸ List.mem_cons_self _ _)
        · exact Or.inr (List.mem_append.mpr (Or.inl h))

/-- The code's subtree test agrees with the specification's chain-based
subtree membership. -/
theorem isInSubtree_iff (n : NodeState) (x c : Nat) :
    isInSubtree n x c = true ↔ ParentReach n.knowledgeTree n.id x c := by
  unfold isInSubtree
  by_cases hxc : x = c
  · subst hxc
    rw [if_pos rfl]
    simp only [true_iff]
    exact ParentReach.refl x
  · rw [if_neg hxc]
    by_cases hkey : kHasKey n.knowledgeTree x = true
    · rw [if_neg (by simp [hkey])]
      constructor
      · intro hrun
        exact bfsReach_sound _ _ _ x [] [x]
          (fun q hq => by
            rcases List.mem_cons.mp hq with h | h
            · subst h; exact ParentReach.refl q
            · cases h) hrun
      · intro hchain
        by_contra hfalse
        rw [Bool.not_eq_true] at hfalse
        exact bfsReach_complete _ _ _ [] [x] hfalse (by simp)
          (by intro v hv; cases hv) x (Or.inr (List.mem_cons_self _ _)) hchain
    · have hkf : kHasKey n.knowledgeTree x = false := by
        rw [← Bool.not_eq_true]; exact hkey
      rw [if_pos (by simp [hkf])]
      simp only [Bool.false_eq_true, false_iff]
      intro hchain
      cases hchain with
      | refl => exact hxc rfl
      | step hxs hy h =>
        exact hkey (kHasKey_of_parentsOf_ne_nil (List.ne_nil_of_mem hy))

/-- Membership in the `_get_direct_children` accumulator fold. -/
theorem mem_directChildren_fold (selfId : Nat) :
    ∀ (l : KTree) (acc : List Nat) (x : Nat),
      (x ∈ l.foldl (fun acc kv =>
          if kv.2.any (fun e => e.parent == selfId) && !(acc.contains kv.1) then
            acc ++ [kv.1]
          else acc) acc)
      ↔ x ∈ acc ∨ ∃ kv ∈ l, kv.1 = x ∧ ∃ e ∈ kv.2, e.parent = selfId := by
  intro l
  induction l with
  | nil => simp
  | cons kv tl ih =>
    intro acc x
    simp only [List.foldl_cons]
    by_cases hany : kv.2.any (fun e => e.parent == selfId) = true
    · have hex : ∃ e ∈ kv.2, e.parent = selfId := by
        rw [List.any_eq_true] at hany
        obtain ⟨e, he, hp⟩ := hany
        exact ⟨e, he, by simpa using hp⟩
      by_cases hacc : acc.contains kv.1 = true
      · have hmem : kv.1 ∈ acc := by
          simpa [contains_eq_decide_mem] using hacc
        rw [if_neg (by simp [hany, contains_eq_decide_mem, hmem])]
        rw [ih]
        constructor
        · rintro (h | ⟨kv', h1, h2, h3⟩)
          · exact Or.inl h
          · exact Or.inr ⟨kv', List.mem_cons_of_mem _ h1, h2, h3⟩
        · rintro (h | ⟨kv', h1, h2, h3⟩)
          · exact Or.inl h
          · rcases List.mem_cons.mp h1 with h1 | h1
            · exact Or.inl (by rw [← h2, h1]; exact hmem)
            · exact Or.inr ⟨kv', h1, h2, h3⟩
      · have hnm : kv.1 ∉ acc := by
          simpa [contains_eq_decide_mem] using hacc
        rw [if_pos (by simp [hany, contains_eq_decide_mem, hnm])]
        rw [ih]
        constructor
        · rintro (h | ⟨kv', h1, h2, h3⟩)
          · rcases List.mem_append.mp h with h | h
            · exact Or.inl h
            · exact Or.inr ⟨kv, List.mem_cons_self _ _, (List.mem_singleton.mp h).symm, hex⟩
          · exact Or.inr ⟨kv', List.mem_cons_of_mem _ h1, h2, h3⟩
        · rintro (h | ⟨kv', h1, h2, h3⟩)
          · exact Or.inl (List.mem_append.mpr (Or.inl h))
          · rcases List.mem_cons.mp h1 with h1 | h1
            · subst h1
              exact Or.inl (List.mem_append.mpr (Or.inr (List.mem_singleton.mpr h2.symm)))
            · exact Or.inr ⟨kv', h1, h2, h3⟩
    · rw [if_neg (by simp [hany])]
      rw [ih]
      constructor
      · rintro (h | ⟨kv', h1, h2, h3⟩)
        · exact Or.inl h
        · exact Or.inr ⟨kv', List.mem_cons_of_mem _ h1, h2, h3⟩
      · rintro (h | ⟨kv', h1, h2, h3⟩)
        · exact Or.inl h
        · rcases List.mem_cons.mp h1 with h1 | h1
          · exfalso
            apply hany
            rw [List.any_eq_true]
            obtain ⟨e, he, hp⟩ := h3
            exact ⟨e, by rw [← h1]; exact he, by simpa using hp⟩
          · exact Or.inr ⟨kv', h1, h2, h3⟩

/-- `_get_direct_children` computes exactly the specification's direct
children. -/
theorem mem_getDirectChildren (n : NodeState) (c : Nat) :
    c ∈ getDirectChildren n ↔ DirectChildSpec n.knowledgeTree n.id c := by
  unfold getDirectChildren DirectChildSpec
  rw [mem_directChildren_fold]
  simp

/-- `_are_in_same_subtree` agrees with the specification's "both endpoints in
the subtree of a single direct child". -/
theorem areInSameSubtree_iff (n : NodeState) (s g : Nat) :
    areInSameSubtree n s g = true ↔ SameSubtreeSpec n.knowledgeTree n.id s g := by
  unfold areInSameSubtree SameSubtreeSpec
  rw [List.any_eq_true]
  constructor
  · rintro ⟨c, hc, hbool⟩
    rw [Bool.and_eq_true] at hbool
    exact ⟨c, (mem_getDirectChildren n c).mp hc,
      (isInSubtree_iff n s c).mp hbool.1, (isInSubtree_iff n g c).mp hbool.2⟩
  · rintro ⟨c, hdc, hs, hg⟩
    refine ⟨c, (mem_getDirectChildren n c).mpr hdc, ?_⟩
    rw [Bool.and_eq_true]
    exact ⟨(isInSubtree_iff n s c).mpr hs, (isInSubtree_iff n g c).mpr hg⟩

/-! ## Claim C1 -/

/-- **C1.** For every node `n` and every active, not-completed message `m` with
remaining hop budget > 0, when the tree-aware policy is in effect and both
`m.source` and `m.target` are keys of `n`'s knowledge tree, `n`'s routing
decision returns the empty receiver set exactly when some single direct child
`c` of `n` (a destination having a knowledge-tree entry with `parent = n.id`)
has both `m.source` and `m.target` in its subtree (connected to `c` by chains
of parent links that do not pass through `n`); otherwise it returns the flood
receiver set; and in the suppression case `n` emits zero transmission records
for `m`.  (The node is assumed to have at least one neighbour, without which
the two branches coincide.) -/
theorem claim1_tree_aware_suppression (n : NodeState) (m : MsgState)
    (hop : Int) (path : List Nat)
    (_hactive : m.isActive = true) (_hncomp : m.isCompleted = false)
    (_hbudget : 0 < hop)
    (hs : kHasKey n.knowledgeTree m.source = true)
    (hg : kHasKey n.knowledgeTree m.target = true)
    (hnb : n.neighbors ≠ []) :
    (treeBasedDecision n m hop = [] ↔
        SameSubtreeSpec n.knowledgeTree n.id m.source m.target)
    ∧ (¬ SameSubtreeSpec n.knowledgeTree n.id m.source m.target →
        treeBasedDecision n m hop = floodingDecision n m hop)
    ∧ (SameSubtreeSpec n.knowledgeTree n.id m.source m.target →
        transmissionsForEntry n m path hop "tree" = []) := by
  have hkeys : (!(kHasKey n.knowledgeTree m.source &&
      kHasKey n.knowledgeTree m.target)) = false := by
    simp [hs, hg]
  by_cases hsame : areInSameSubtree n m.source m.target = true
  · have hspec := (areInSameSubtree_iff n m.source m.target).mp hsame
    have hdec : treeBasedDecision n m hop = [] := by
      unfold treeBasedDecision
      rw [if_neg (by simp [hkeys]), if_pos hsame]
    refine ⟨⟨fun _ => hspec, fun _ => hdec⟩, fun hc => absurd hspec hc, fun _ => ?_⟩
    unfold transmissionsForEntry getRoutingDecision
    by_cases htgt : (m.target == n.id) = true
    · rw [if_pos htgt]; rfl
    · rw [if_neg htgt, if_neg (by simp), hdec]; rfl
  · have hspec : ¬ SameSubtreeSpec n.knowledgeTree n.id m.source m.target :=
      fun hc => hsame ((areInSameSubtree_iff n m.source m.target).mpr hc)
    have hdec : treeBasedDecision n m hop = n.neighbors := by
      unfold treeBasedDecision
      rw [if_neg (by simp [hkeys]), if_neg hsame]
    exact ⟨⟨fun h => absurd (hdec ▸ h) hnb, fun hc => absurd hc hspec⟩,
      fun _ => hdec, fun hc => absurd hc hspec⟩

/-- The knowledge tree of scenario S4: node 7 has learned the path
`[5, 3, 7]`, giving destination 5 (distance 2, parent 3) and destination 3
(distance 1, parent 7). -/
def c1Tree : KTree :=
  [(5, [⟨3, 2, 0, some 3⟩]), (3, [⟨7, 1, 0, some 3⟩])]

/-- Node 7 of scenario S4. -/
def c1Node : NodeState :=
  { id := 7, neighbors := [3, 9], pending := [], received := [],
    receivedMessageIds := [], seenMessageCopies := [], collision := false,
    sending := false, receiving := false, knowledgeTree := c1Tree }

/-- An active comparison message `5 → 3` routed by node 7. -/
def c1Msg : MsgState :=
  { freshMsg 0 5 3 4 1 with isActive := true }

/-- **C1 witness.** At scenario S4 the hypotheses hold and the suppression
branch of `claim1_tree_aware_suppression` fires: node 7 returns the empty
receiver set. -/
theorem claim1_tree_aware_suppression_witness :
    treeBasedDecision c1Node c1Msg 3 = [] :=
  (claim1_tree_aware_suppression c1Node c1Msg 3 [9, 7] rfl rfl (by decide)
      (by decide) (by decide) (by decide)).1.mpr
    ⟨3,
     ⟨(3, [⟨7, 1, 0, some 3⟩]), by decide, rfl, ⟨7, 1, 0, some 3⟩, by decide, rfl⟩,
     ParentReach.step (by decide) (by decide) (ParentReach.refl 3),
     ParentReach.refl 3⟩

/-! ## Claim C2 -/

/-- A sender node used by the C2 counterexample: node 0 with neighbours 1 and
2, holding a message copy that arrived over the path `[1, 0]`. -/
def c2Node : NodeState :=
  { id := 0, neighbors := [1, 2], pending := [], received := [],
    receivedMessageIds := [], seenMessageCopies := [], collision := false,
    sending := false, receiving := false, knowledgeTree := [] }

/-- An active, not-completed message `1 → 5` for the C2 counterexample. -/
def c2Msg : MsgState :=
  { freshMsg 0 1 5 4 1 with isActive := true }

/-- **C2 counterexample.** On an outbox entry with path `[1, 0]` (immediate
previous hop 1) and positive budget, `node.py`'s flood routing decision
returns the *full* neighbour list `[1, 2]` — the immediate previous hop
`path[-2] = 1` is not filtered out, and the engine emits a transmission record
back to node 1; the claim requires the decision to be exactly
`neighbors \ {1} = [2]`. -/
theorem claim2_counterexample :
    c2Msg.isActive = true ∧ c2Msg.isCompleted = false ∧ (0 : Int) < 3 ∧
    2 ≤ [1, 0].length ∧ [1, 0].getD ([1, 0].length - 2) 0 = 1 ∧
    floodingDecision c2Node c2Msg 3 = [1, 2] ∧
    floodingDecision c2Node c2Msg 3 ≠ [2] ∧
    (⟨0, 1, c2Msg.id, [1, 0], 3⟩ : TransRecord) ∈
      transmissionsForEntry c2Node c2Msg [1, 0] 3 "flooding" := by
  refine ⟨rfl, rfl, by decide, by decide, rfl, rfl, by decide, ?_⟩
  decide

/-- **C2 amended.** `node.py`'s flood routing decision (used by the
MessageProcessor engine under the flood policy and for every learning-phase
transmission) returns the full neighbour list with no previous-hop filtering
whenever the node is not the message's target; only the legacy inline engine
of `simulator.py` removes the immediate previous hop, emitting to exactly
`neighbors \ {path[-2]}` when `|path| ≥ 2` and to all neighbours when
`|path| = 1`. -/
theorem claim2_flood_decision (n : NodeState) (m : MsgState) (hop : Int)
    (mode : String) (neighbors path : List Nat)
    (htgt : (m.target == n.id) = false) :
    getRoutingDecision n m hop "flooding" = n.neighbors
    ∧ floodingDecision n m hop = n.neighbors
    ∧ algorithmFor mode "learning" = "flooding"
    ∧ (∀ nb, nb ∈ simValidNeighbors neighbors path ↔
        nb ∈ neighbors ∧
          ¬(2 ≤ path.length ∧ nb = path.getD (path.length - 2) 0)) := by
  refine ⟨?_, rfl, rfl, ?_⟩
  · unfold getRoutingDecision floodingDecision
    simp [htgt]
  · intro nb
    unfold simValidNeighbors
    rw [List.mem_filter]
    constructor
    · rintro ⟨h1, h2⟩
      refine ⟨h1, ?_⟩
      rintro ⟨hlen, heq⟩
      rw [Bool.not_eq_true', Bool.and_eq_false_iff] at h2
      rcases h2 with h2 | h2
      · rw [decide_eq_false_iff_not] at h2
        omega
      · rw [beq_eq_false_iff_ne] at h2
        exact h2 heq
    · rintro ⟨h1, h2⟩
      refine ⟨h1, ?_⟩
      rw [Bool.not_eq_true', Bool.and_eq_false_iff]
      by_cases hlen : 2 ≤ path.length
      · refine Or.inr (beq_eq_false_iff_ne.mpr ?_)
        exact fun heq => h2 ⟨hlen, heq⟩
      · exact Or.inl (decide_eq_false_iff_not.mpr (by omega))

/-- **C2 amended, witness.** At the counterexample state: the flood decision
keeps both neighbours, while `simulator.py`'s inline filter would keep only
neighbour 2. -/
theorem claim2_flood_decision_witness :
    getRoutingDecision c2Node c2Msg 3 "flooding" = [1, 2]
    ∧ (2 ∈ simValidNeighbors [1, 2] [1, 0] ∧ 1 ∉ simValidNeighbors [1, 2] [1, 0]) :=
  ⟨(claim2_flood_decision c2Node c2Msg 3 "tree" [1, 2] [1, 0] (by decide)).1,
   ((claim2_flood_decision c2Node c2Msg 3 "tree" [1, 2] [1, 0] (by decide)).2.2.2 2).mpr
     ⟨by decide, by decide⟩,
   fun h =>
     (((claim2_flood_decision c2Node c2Msg 3 "tree" [1, 2] [1, 0] (by decide)).2.2.2 1).mp
       h).2 ⟨by decide, by decide⟩⟩

/-! ## Claim C5 -/

/-- **C5.** `receive_message_copy` returns `true` iff the message id is not in
the node's set of accepted ids and the `(id, sender)` pair is not in its
seen-copies set; on acceptance it records the id, the pair, and the inbox
item; on rejection the node state is unchanged. -/
theorem claim5_receive_copy (n : NodeState) (m : MsgState) (senderId : Nat)
    (senderPath : List Nat) :
    ((receiveMessageCopy n m senderId senderPath).1 = true ↔
      m.id ∉ n.receivedMessageIds ∧ (m.id, senderId) ∉ n.seenMessageCopies)
    ∧ ((receiveMessageCopy n m senderId senderPath).1 = true →
        (receiveMessageCopy n m senderId senderPath).2 =
          { n with
            seenMessageCopies := n.seenMessageCopies ++ [(m.id, senderId)],
            received := n.received ++ [⟨m.id, senderId, senderPath⟩],
            receivedMessageIds := n.receivedMessageIds ++ [m.id] })
    ∧ ((receiveMessageCopy n m senderId senderPath).1 = false →
        (receiveMessageCopy n m senderId senderPath).2 = n) := by
  unfold receiveMessageCopy
  by_cases h1 : m.id ∈ n.receivedMessageIds
  · rw [if_pos h1]
    refine ⟨⟨fun h => ?_, fun h => ?_⟩, fun h => ?_, fun _ => rfl⟩
    · simp at h
    · exact absurd h1 h.1
    · simp at h
  · rw [if_neg h1]
    by_cases h2 : (m.id, senderId) ∈ n.seenMessageCopies
    · rw [if_pos h2]
      refine ⟨⟨fun h => ?_, fun h => ?_⟩, fun h => ?_, fun _ => rfl⟩
      · simp at h
      · exact absurd h2 h.2
      · simp at h
    · rw [if_neg h2]
      refine ⟨⟨fun _ => ⟨h1, h2⟩, fun _ => rfl⟩, fun _ => rfl, fun h => ?_⟩
      simp at h

/-! ## Claim C10 -/

/-- **C10.** `build_knowledge_tree_from_message` is total at its interface:
a path of length < 2, or a path that does not contain the node's own id
(the caught `ValueError` branch), returns normally and leaves the knowledge
tree — the only node state the function writes — unchanged. -/
theorem claim10_build_total (selfId : Nat) (t : KTree) (p : List Nat)
    (fr : Nat) (h : p.length < 2 ∨ selfId ∉ p) :
    buildKnowledgeTreeFromMessage selfId t p fr = t := by
  unfold buildKnowledgeTreeFromMessage
  rcases h with h | h
  · rw [if_pos h]
  · by_cases hlen : p.length < 2
    · rw [if_pos hlen]
    · rw [if_neg hlen, if_neg h]

/-- **C10 witness.** A short path and a path missing the node's id both leave
a concrete knowledge tree unchanged. -/
theorem claim10_build_total_witness :
    buildKnowledgeTreeFromMessage 7 [(1, [⟨7, 1, 0, some 1⟩])] [3] 5
      = [(1, [⟨7, 1, 0, some 1⟩])]
    ∧ buildKnowledgeTreeFromMessage 7 [(1, [⟨7, 1, 0, some 1⟩])] [3, 4, 5] 5
      = [(1, [⟨7, 1, 0, some 1⟩])] :=
  ⟨claim10_build_total 7 _ [3] 5 (Or.inl (by decide)),
   claim10_build_total 7 _ [3, 4, 5] 5 (Or.inr (by decide))⟩

/-! ## Claim C9 -/

/-- **C9 counterexample.** In a 50-node network (`node_ids = [0, …, 49]`), a
message generated for the comparison phase has `hop_limit = 4`, not the
claimed 8: `generate_comparison_messages` never passes the network size to the
`Message` constructor, so the size table is never consulted; with
`total_frames = 100` the start-frame draw ranges up to `96 = total_frames - 4`,
not `total_frames - (hop_limit + 4) = 92`. -/
theorem claim9_counterexample :
    (generateComparisonMessage (List.range 50) 0 3 7 100 1 96).hopLimit = 4
    ∧ (generateComparisonMessage (List.range 50) 0 3 7 100 1 96).hopLimit ≠ 8
    ∧ (generateComparisonMessage (List.range 50) 0 3 7 100 1 96).startFrame = 96
    ∧ ¬ (generateComparisonMessage (List.range 50) 0 3 7 100 1 96).startFrame
        ≤ 100 - (4 + 4) := by
  refine ⟨rfl, by decide, rfl, by decide⟩

/-- **C9 amended.** Every comparison-phase message has distinct random
endpoints (the target is drawn from the node ids minus the source), always
`hop_limit = 4` (the constructor is called without a network size, so the
10/50/100 table is unused), and a start frame drawn uniformly from
`[1, total_frames - 4]` (the manager overwrites the constructor's draw). -/
theorem claim9_comparison_messages (nodeIds : List Nat)
    (mid src tgt totalFrames ctorDraw startDraw : Nat)
    (_hsrc : src ∈ nodeIds)
    (htgt : tgt ∈ nodeIds.filter (fun x => x ≠ src))
    (hd1 : 1 ≤ startDraw) (hd2 : startDraw ≤ totalFrames - 4) :
    (generateComparisonMessage nodeIds mid src tgt totalFrames ctorDraw startDraw).source
        = src
    ∧ (generateComparisonMessage nodeIds mid src tgt totalFrames ctorDraw startDraw).target
        = tgt
    ∧ (generateComparisonMessage nodeIds mid src tgt totalFrames ctorDraw startDraw).source
        ≠ (generateComparisonMessage nodeIds mid src tgt totalFrames ctorDraw startDraw).target
    ∧ (generateComparisonMessage nodeIds mid src tgt totalFrames ctorDraw startDraw).hopLimit
        = 4
    ∧ 1 ≤ (generateComparisonMessage nodeIds mid src tgt totalFrames ctorDraw startDraw).startFrame
    ∧ (generateComparisonMessage nodeIds mid src tgt totalFrames ctorDraw startDraw).startFrame
        ≤ totalFrames - 4 := by
  have hne : tgt ≠ src := by
    have := List.mem_filter.mp htgt
    simpa using this.2
  exact ⟨rfl, rfl, fun h => hne (by simpa using h.symm), rfl, hd1, hd2⟩

/-- **C9 amended, witness.** A concrete draw in a 10-node network. -/
theorem claim9_comparison_messages_witness :
    (generateComparisonMessage (List.range 10) 0 3 7 60 1 20).source = 3
    ∧ (generateComparisonMessage (List.range 10) 0 3 7 60 1 20).target = 7
    ∧ (generateComparisonMessage (List.range 10) 0 3 7 60 1 20).source
        ≠ (generateComparisonMessage (List.range 10) 0 3 7 60 1 20).target
    ∧ (generateComparisonMessage (List.range 10) 0 3 7 60 1 20).hopLimit = 4
    ∧ 1 ≤ (generateComparisonMessage (List.range 10) 0 3 7 60 1 20).startFrame
    ∧ (generateComparisonMessage (List.range 10) 0 3 7 60 1 20).startFrame ≤ 60 - 4 :=
  claim9_comparison_messages (List.range 10) 0 3 7 60 1 20
    (by decide) (by decide) (by decide) (by decide)

/-! ## Claim C7 -/

/-- The operations the engine performs on one message over its lifetime:
`start_transmission`, `target_reached`, and `complete_message reason`.  Every
call site of `complete_message` in `MessageProcessor.py` and `node.py` is
guarded by `if not message.is_completed`, which the `complete` case models. -/
inductive MsgEvent
  | start
  | targetReached
  | complete (reason : String)
deriving DecidableEq, Repr

/-- Applying one event with the `simulator/message.py` operations
(`start_transmission` also records the initial path). -/
def applyEventV2 (m : MsgState) : MsgEvent → MsgState
  | .start => { m with isActive := true, paths := m.paths ++ [[m.source]] }
  | .targetReached => targetReachedV2 m
  | .complete reason => if m.isCompleted then m else completeMessageV2 reason m

/-- A message's life: fold the engine's events over an initial state. -/
def runEventsV2 (m : MsgState) (es : List MsgEvent) : MsgState :=
  es.foldl applyEventV2 m

/-- One event preserves "not yet completed implies status FAILED". -/
theorem applyEventV2_pre_completion (m : MsgState) (e : MsgEvent)
    (h : m.isCompleted = false → m.status = "FAILED") :
    (applyEventV2 m e).isCompleted = false → (applyEventV2 m e).status = "FAILED" := by
  cases e with
  | start => exact fun hc => h hc
  | targetReached => exact fun hc => h hc
  | complete reason =>
    simp only [applyEventV2]
    by_cases hm : m.isCompleted
    · rw [if_pos hm]
      exact h
    · rw [if_neg hm]
      intro hc
      exact absurd hc (by simp [completeMessageV2])

/-- **C7 counterexample.** Under the flat `message.py` variant,
`target_reached` assigns `status = "SUCCESS"` while the message is still not
completed — contradicting the claim that `status` is assigned exactly once, at
the moment of completion, and is never observed as `SUCCESS` before
completion. -/
theorem claim7_counterexample :
    (targetReachedV1 (freshMsg 0 1 2 4 1)).status = "SUCCESS"
    ∧ (targetReachedV1 (freshMsg 0 1 2 4 1)).isCompleted = false
    ∧ (freshMsg 0 1 2 4 1).status = "FAILED" := by
  refine ⟨rfl, rfl, rfl⟩

/-- **C7 amended.** Under `simulator/message.py` (the [[C7]] claim holds
there): along any event trace starting from a fresh message, (a) the status is
`"FAILED"` (never `"SUCCESS"`) as long as the message is not completed;
(b) once completed, no later event changes `status` or `isCompleted` —
status is assigned at most once, at the completing event;
(c) the completing event sets `status = "SUCCESS"` iff `target_received` holds
at that moment.  Under the flat `message.py` variant, `target_reached`
additionally assigns `status = "SUCCESS"` as soon as the target receives,
before completion. -/
theorem claim7_status_assignment (mid src tgt hl sf : Nat)
    (es : List MsgEvent) (e : MsgEvent) (m : MsgState) (reason : String)
    (hnc : m.isCompleted = false) :
    ((runEventsV2 (freshMsg mid src tgt hl sf) es).isCompleted = false →
      (runEventsV2 (freshMsg mid src tgt hl sf) es).status = "FAILED")
    ∧ (∀ m' : MsgState, m'.isCompleted = true →
        (applyEventV2 m' e).status = m'.status
        ∧ (applyEventV2 m' e).isCompleted = true)
    ∧ ((applyEventV2 m (.complete reason)).isCompleted = true
        ∧ ((applyEventV2 m (.complete reason)).status = "SUCCESS"
            ↔ m.targetReceived = true)) := by
  refine ⟨?_, ?_, ?_⟩
  · have : ∀ (l : List MsgEvent) (m0 : MsgState),
        (m0.isCompleted = false → m0.status = "FAILED") →
        ((runEventsV2 m0 l).isCompleted = false →
          (runEventsV2 m0 l).status = "FAILED") := by
      intro l
      induction l with
      | nil => intro m0 h; exact h
      | cons e' tl ih =>
        intro m0 h
        exact ih (applyEventV2 m0 e') (applyEventV2_pre_completion m0 e' h)
    exact this es (freshMsg mid src tgt hl sf) (fun _ => rfl)
  · intro m' hm'
    cases e with
    | start => exact ⟨rfl, hm'⟩
    | targetReached => exact ⟨rfl, hm'⟩
    | complete reason' =>
      simp only [applyEventV2]
      rw [if_pos hm']
      exact ⟨rfl, hm'⟩
  · simp only [applyEventV2]
    rw [if_neg (by simp [hnc])]
    refine ⟨rfl, ?_⟩
    unfold completeMessageV2
    by_cases ht : m.targetReceived
    · simp [ht]
    · simp [ht]

/-- **C7 amended, witness.** A concrete trace: start, reach the target, then a
guarded completion; before completion the status reads `"FAILED"`, the
completing event yields `"SUCCESS"`. -/
theorem claim7_status_assignment_witness :
    ((runEventsV2 (freshMsg 0 1 2 4 1) [.start, .targetReached]).isCompleted = false →
      (runEventsV2 (freshMsg 0 1 2 4 1) [.start, .targetReached]).status = "FAILED")
    ∧ ((applyEventV2 (runEventsV2 (freshMsg 0 1 2 4 1) [.start, .targetReached])
          (.complete "hop_limit_exceeded")).isCompleted = true
        ∧ ((applyEventV2 (runEventsV2 (freshMsg 0 1 2 4 1) [.start, .targetReached])
              (.complete "hop_limit_exceeded")).status = "SUCCESS"
            ↔ (runEventsV2 (freshMsg 0 1 2 4 1) [.start, .targetReached]).targetReceived
                = true)) :=
  ⟨(claim7_status_assignment 0 1 2 4 1 [.start, .targetReached] .start
      (runEventsV2 (freshMsg 0 1 2 4 1) [.start, .targetReached])
      "hop_limit_exceeded" rfl).1,
   (claim7_status_assignment 0 1 2 4 1 [.start, .targetReached] .start
      (runEventsV2 (freshMsg 0 1 2 4 1) [.start, .targetReached])
      "hop_limit_exceeded" rfl).2.2⟩

/-! ## Message-store lemmas -/

/-- Presence in the store as an existence statement. -/
theorem msGet?_isSome_iff (σ : MsgStore) (mid : Nat) :
    (msGet? σ mid).isSome = true ↔ ∃ m ∈ σ, m.id = mid := by
  unfold msGet?
  rw [List.find?_isSome]
  constructor
  · rintro ⟨m, hm, hp⟩
    exact ⟨m, hm, by simpa using hp⟩
  · rintro ⟨m, hm, hp⟩
    exact ⟨m, hm, by simpa using hp⟩

/-- An id-preserving update does not change which ids are present. -/
theorem msGet?_isSome_msUpdate (σ : MsgStore) (mid' mid : Nat)
    (f : MsgState → MsgState) (hid : ∀ m, (f m).id = m.id) :
    (msGet? (msUpdate σ mid' f) mid).isSome = (msGet? σ mid).isSome := by
  cases h : (msGet? σ mid).isSome with
  | true =>
    rw [msGet?_isSome_iff] at h ⊢
    obtain ⟨m, hm, hmid⟩ := h
    refine ⟨if m.id == mid' then f m else m, List.mem_map_of_mem _ hm, ?_⟩
    split
    · rw [hid m]; exact hmid
    · exact hmid
  | false =>
    rw [Bool.eq_false_iff] at h ⊢
    intro hc
    apply h
    rw [msGet?_isSome_iff] at hc ⊢
    obtain ⟨m', hm', hmid⟩ := hc
    obtain ⟨m, hm, rfl⟩ := List.mem_map.mp hm'
    refine ⟨m, hm, ?_⟩
    revert hmid
    split
    · rw [hid m]; exact id
    · exact id

/-- How a store read goes through an id-preserving update: the updated message
is read through `f` when it is the one updated and actually present; every
other read is unchanged. -/
theorem msGetD_msUpdate (σ : MsgStore) (mid' mid : Nat)
    (f : MsgState → MsgState) (hid : ∀ m, (f m).id = m.id) :
    msGetD (msUpdate σ mid' f) mid =
      if mid = mid' ∧ (msGet? σ mid).isSome = true then f (msGetD σ mid)
      else msGetD σ mid := by
  unfold msGetD msGet? msUpdate
  induction σ with
  | nil => simp
  | cons m σ' ih =>
    simp only [List.map_cons]
    by_cases hm : (m.id == mid) = true
    · have hmid : m.id = mid := by simpa using hm
      have hhead : (((if m.id == mid' then f m else m).id == mid)) = true := by
        by_cases h' : (m.id == mid') = true
        · rw [if_pos h']
          rw [hid m]
          exact hm
        · rw [if_neg h']
          exact hm
      simp only [List.find?_cons, hhead, hm]
      by_cases h' : (m.id == mid') = true
      · have hmm : mid = mid' := by
          rw [← hmid]
          simpa using h'
        rw [if_pos h', if_pos ⟨hmm, by simp⟩]
        simp
      · have hmm : ¬ mid = mid' := by
          intro hc
          apply h'
          rw [hmid, hc]
          simp
        rw [if_neg h', if_neg (fun hc => hmm hc.1)]
    · have hhead : (((if m.id == mid' then f m else m).id == mid)) = false := by
        rw [Bool.eq_false_iff]
        intro hc
        apply hm
        revert hc
        split
        · rw [hid m]; exact id
        · exact id
      have hmf : (m.id == mid) = false := by
        rw [Bool.eq_false_iff]; exact hm
      simp only [List.find?_cons, hhead, hmf]
      exact ih

/-- Reads of a different id are untouched by an update. -/
theorem msGetD_msUpdate_ne (σ : MsgStore) (mid' mid : Nat)
    (f : MsgState → MsgState) (hid : ∀ m, (f m).id = m.id) (hne : mid ≠ mid') :
    msGetD (msUpdate σ mid' f) mid = msGetD σ mid := by
  rw [msGetD_msUpdate σ mid' mid f hid, if_neg (fun hc => hne hc.1)]

/-- A read of the updated id when present. -/
theorem msGetD_msUpdate_self (σ : MsgStore) (mid : Nat)
    (f : MsgState → MsgState) (hid : ∀ m, (f m).id = m.id)
    (hsome : (msGet? σ mid).isSome = true) :
    msGetD (msUpdate σ mid f) mid = f (msGetD σ mid) := by
  rw [msGetD_msUpdate σ mid mid f hid, if_pos ⟨rfl, hsome⟩]

/-- Reading a field unaffected by an update. -/
theorem msGetD_field_eq {α : Type} (g : MsgState → α) (σ : MsgStore)
    (mid' mid : Nat) (f : MsgState → MsgState)
    (hid : ∀ m, (f m).id = m.id) (hg : ∀ m, g (f m) = g m) :
    g (msGetD (msUpdate σ mid' f) mid) = g (msGetD σ mid) := by
  rw [msGetD_msUpdate σ mid' mid f hid]
  split
  · exact hg _
  · rfl

/-- A Boolean field only ever set by an update stays `true` through it. -/
theorem msGetD_mono_true (g : MsgState → Bool) (σ : MsgStore)
    (mid' mid : Nat) (f : MsgState → MsgState)
    (hid : ∀ m, (f m).id = m.id)
    (hmono : ∀ m, g m = true → g (f m) = true)
    (h : g (msGetD σ mid) = true) :
    g (msGetD (msUpdate σ mid' f) mid) = true := by
  rw [msGetD_msUpdate σ mid' mid f hid]
  split
  · exact hmono _ h
  · exact h

/-! ## Step lemmas for `process_received_messages` (claim C3) -/

/-- The node id is never changed by one reception step. -/
theorem processOne_node_id (frame : Nat)
    (st : MsgStore × NodeState × List (Nat × List Nat)) (item : InEntry) :
    (processOneReceived frame st item).2.1.id = st.2.1.id := by
  obtain ⟨σ, n, pr⟩ := st
  simp only [processOneReceived, createNewCopy]
  split <;> rfl

/-- One reception step does not change which message ids are present. -/
theorem processOne_isSome (frame : Nat)
    (st : MsgStore × NodeState × List (Nat × List Nat)) (item : InEntry)
    (mid : Nat) :
    (msGet? (processOneReceived frame st item).1 mid).isSome
      = (msGet? st.1 mid).isSome := by
  obtain ⟨σ, n, pr⟩ := st
  simp only [processOneReceived, createNewCopy]
  have h1 : ∀ σ' : MsgStore,
      (msGet? (msUpdate σ' item.mid
          (fun m => if item.senderPath ++ [n.id] ∈ m.paths then m
            else { m with paths := m.paths ++ [item.senderPath ++ [n.id]] })) mid).isSome
        = (msGet? σ' mid).isSome :=
    fun σ' => msGet?_isSome_msUpdate σ' item.mid mid _
      (fun m => by split <;> rfl)
  have h2 : ∀ σ' : MsgStore,
      (msGet? (msUpdate σ' item.mid targetReachedV2) mid).isSome
        = (msGet? σ' mid).isSome :=
    fun σ' => msGet?_isSome_msUpdate σ' item.mid mid _ (fun m => rfl)
  have h3 : ∀ σ' : MsgStore,
      (msGet? (msUpdate σ' item.mid (completeMessageV2 "hop_limit_exceeded")) mid).isSome
        = (msGet? σ' mid).isSome :=
    fun σ' => msGet?_isSome_msUpdate σ' item.mid mid _ (fun m => rfl)
  repeat' split
  all_goals simp only [h1, h2, h3]

/-- One reception step never changes a message's target. -/
theorem processOne_target (frame : Nat)
    (st : MsgStore × NodeState × List (Nat × List Nat)) (item : InEntry)
    (mid : Nat) :
    (msGetD (processOneReceived frame st item).1 mid).target
      = (msGetD st.1 mid).target := by
  obtain ⟨σ, n, pr⟩ := st
  simp only [processOneReceived, createNewCopy]
  have h1 : ∀ σ' : MsgStore,
      (msGetD (msUpdate σ' item.mid
          (fun m => if item.senderPath ++ [n.id] ∈ m.paths then m
            else { m with paths := m.paths ++ [item.senderPath ++ [n.id]] })) mid).target
        = (msGetD σ' mid).target :=
    fun σ' => msGetD_field_eq (fun m => m.target) σ' item.mid mid _
      (fun m => by split <;> rfl)
      (fun m => by split <;> rfl)
  have h2 : ∀ σ' : MsgStore,
      (msGetD (msUpdate σ' item.mid targetReachedV2) mid).target
        = (msGetD σ' mid).target :=
    fun σ' => msGetD_field_eq (fun m => m.target) σ' item.mid mid _
      (fun m => rfl) (fun m => rfl)
  have h3 : ∀ σ' : MsgStore,
      (msGetD (msUpdate σ' item.mid (completeMessageV2 "hop_limit_exceeded")) mid).target
        = (msGetD σ' mid).target :=
    fun σ' => msGetD_field_eq (fun m => m.target) σ' item.mid mid _
      (fun m => rfl) (fun m => rfl)
  repeat' split
  all_goals simp only [h1, h2, h3]

/-- `target_received`, once `true`, survives one reception step. -/
theorem processOne_targetReceived_mono (frame : Nat)
    (st : MsgStore × NodeState × List (Nat × List Nat)) (item : InEntry)
    (mid : Nat) (h : (msGetD st.1 mid).targetReceived = true) :
    (msGetD (processOneReceived frame st item).1 mid).targetReceived = true := by
  obtain ⟨σ, n, pr⟩ := st
  simp only [processOneReceived, createNewCopy]
  have m1 : ∀ σ' : MsgStore, (msGetD σ' mid).targetReceived = true →
      (msGetD (msUpdate σ' item.mid
          (fun m => if item.senderPath ++ [n.id] ∈ m.paths then m
            else { m with paths := m.paths ++ [item.senderPath ++ [n.id]] })) mid).targetReceived
        = true :=
    fun σ' h' => msGetD_mono_true (fun m => m.targetReceived) σ' item.mid mid _
      (fun m => by split <;> rfl)
      (fun m hm => by split <;> exact hm) h'
  have m2 : ∀ σ' : MsgStore, (msGetD σ' mid).targetReceived = true →
      (msGetD (msUpdate σ' item.mid targetReachedV2) mid).targetReceived = true :=
    fun σ' h' => msGetD_mono_true (fun m => m.targetReceived) σ' item.mid mid _
      (fun m => rfl) (fun m _ => rfl) h'
  have m3 : ∀ σ' : MsgStore, (msGetD σ' mid).targetReceived = true →
      (msGetD (msUpdate σ' item.mid (completeMessageV2 "hop_limit_exceeded")) mid).targetReceived
        = true :=
    fun σ' h' => msGetD_mono_true (fun m => m.targetReceived) σ' item.mid mid _
      (fun m => rfl) (fun m hm => hm) h'
  repeat' split
  all_goals repeat (first | exact h | apply m1 | apply m2 | apply m3)

/-- Processing an inbox item addressed to this node sets `target_received`. -/
theorem processOne_sets_targetReceived (frame : Nat)
    (st : MsgStore × NodeState × List (Nat × List Nat)) (item : InEntry)
    (hsome : (msGet? st.1 item.mid).isSome = true)
    (htgt : (msGetD st.1 item.mid).target = st.2.1.id) :
    (msGetD (processOneReceived frame st item).1 item.mid).targetReceived = true := by
  obtain ⟨σ, n, pr⟩ := st
  simp only [processOneReceived, createNewCopy]
  have hid1 : ∀ m : MsgState,
      (if item.senderPath ++ [n.id] ∈ m.paths then m
        else { m with paths := m.paths ++ [item.senderPath ++ [n.id]] }).id = m.id :=
    fun m => by split <;> rfl
  have hsome1 : (msGet? (msUpdate σ item.mid
      (fun m => if item.senderPath ++ [n.id] ∈ m.paths then m
        else { m with paths := m.paths ++ [item.senderPath ++ [n.id]] })) item.mid).isSome
      = true := by
    rw [msGet?_isSome_msUpdate σ item.mid item.mid _ hid1]
    exact hsome
  have htgt1 : (msGetD (msUpdate σ item.mid
      (fun m => if item.senderPath ++ [n.id] ∈ m.paths then m
        else { m with paths := m.paths ++ [item.senderPath ++ [n.id]] })) item.mid).target
      = n.id := by
    rw [msGetD_field_eq (fun m => m.target) σ item.mid item.mid _ hid1
      (fun m => by split <;> rfl)]
    exact htgt
  have hrec : ∀ σ' : MsgStore, (msGet? σ' item.mid).isSome = true →
      (msGetD (if !(msGetD σ' item.mid).targetReceived then
          msUpdate σ' item.mid targetReachedV2 else σ') item.mid).targetReceived
        = true := by
    intro σ' hs
    by_cases hr : (msGetD σ' item.mid).targetReceived = true
    · rw [if_neg (by simp [hr])]
      exact hr
    · rw [if_pos (by simp [Bool.not_eq_true] at hr; simp [hr])]
      rw [msGetD_msUpdate_self σ' item.mid targetReachedV2 (fun _ => rfl) hs]
      rfl
  have hmono3 : ∀ σ' : MsgStore, (msGetD σ' item.mid).targetReceived = true →
      (msGetD (if !(msGetD σ' item.mid).isCompleted then
          msUpdate σ' item.mid (completeMessageV2 "hop_limit_exceeded") else σ')
        item.mid).targetReceived = true := by
    intro σ' h'
    split
    · exact msGetD_mono_true (fun m => m.targetReceived) σ' item.mid item.mid _
        (fun m => rfl) (fun m hm => hm) h'
    · exact h'
  have hsome2 : ∀ σ' : MsgStore, (msGet? σ' item.mid).isSome = true →
      (msGet? (if !(msGetD σ' item.mid).targetReceived then
          msUpdate σ' item.mid targetReachedV2 else σ') item.mid).isSome = true := by
    intro σ' hs
    split
    · rw [msGet?_isSome_msUpdate σ' item.mid item.mid targetReachedV2 (fun _ => rfl)]
      exact hs
    · exact hs
  rw [if_pos htgt1]
  split
  · exact hmono3 _ (hrec _ hsome1)
  · exact hrec _ hsome1

/-- Store facts survive the whole inbox fold: presence, targets, a `true`
`target_received`, and the node id. -/
theorem processFold_facts (frame : Nat) (l : List InEntry) :
    ∀ (st : MsgStore × NodeState × List (Nat × List Nat)) (mid : Nat),
      ((msGet? ((l.foldl (processOneReceived frame) st)).1 mid).isSome
          = (msGet? st.1 mid).isSome)
      ∧ ((msGetD ((l.foldl (processOneReceived frame) st)).1 mid).target
          = (msGetD st.1 mid).target)
      ∧ ((msGetD st.1 mid).targetReceived = true →
          (msGetD ((l.foldl (processOneReceived frame) st)).1 mid).targetReceived = true)
      ∧ ((l.foldl (processOneReceived frame) st).2.1.id = st.2.1.id) := by
  induction l with
  | nil => exact fun st mid => ⟨rfl, rfl, fun h => h, rfl⟩
  | cons a tl ih =>
    intro st mid
    simp only [List.foldl_cons]
    obtain ⟨i1, i2, i3, i4⟩ := ih (processOneReceived frame st a) mid
    refine ⟨?_, ?_, ?_, ?_⟩
    · rw [i1, processOne_isSome]
    · rw [i2, processOne_target]
    · intro h
      exact i3 (processOne_targetReceived_mono frame st a mid h)
    · rw [i4, processOne_node_id]

/-- An inbox item addressed to this node gets `target_received` set by the
inbox fold, whatever else the fold does. -/
theorem processFold_sets_targetReceived (frame : Nat) (l : List InEntry) :
    ∀ (st : MsgStore × NodeState × List (Nat × List Nat)) (item : InEntry),
      item ∈ l →
      (msGet? st.1 item.mid).isSome = true →
      (msGetD st.1 item.mid).target = st.2.1.id →
      (msGetD ((l.foldl (processOneReceived frame) st)).1 item.mid).targetReceived
        = true := by
  induction l with
  | nil => intro st item h; cases h
  | cons a tl ih =>
    intro st item hmem hsome htgt
    simp only [List.foldl_cons]
    rcases List.mem_cons.mp hmem with h | h
    · subst h
      exact (processFold_facts frame tl (processOneReceived frame st item) item.mid).2.2.1
        (processOne_sets_targetReceived frame st item hsome htgt)
    · refine ih (processOneReceived frame st a) item h ?_ ?_
      · rw [processOne_isSome]
        exact hsome
      · rw [processOne_target, processOne_node_id]
        exact htgt

/-! ## Claim C3 -/

/-- **C3.** When the node equal to `m.target` processes an accepted copy of
`m`, its reception step sets `m.target_received`; and (under both algorithm
modes, hence in every later tick as well) a node that is a message's target
never emits a transmission record for that message — `get_routing_decision`
returns the empty receiver list for targets, so `_get_node_transmissions`
produces no records from any of the target's outbox entries. -/
theorem claim3_target_never_forwards (σ : MsgStore) (n : NodeState)
    (frame : Nat) (item : InEntry)
    (hmem : item ∈ n.received)
    (hsome : (msGet? σ item.mid).isSome = true)
    (htgt : (msGetD σ item.mid).target = n.id) :
    (msGetD (processReceivedMessages σ n frame).1 item.mid).targetReceived = true
    ∧ (∀ (n' : NodeState) (m : MsgState) (path : List Nat) (budget : Int)
        (mode : String), m.target = n'.id →
          transmissionsForEntry n' m path budget mode = []) := by
  constructor
  · exact processFold_sets_targetReceived frame n.received (σ, n, []) item hmem hsome htgt
  · intro n' m path budget mode hm
    unfold transmissionsForEntry getRoutingDecision
    rw [if_pos (by simp [hm])]
    rfl

/-- The store of the C3 witness: one message `1 → 3`. -/
def c3Store : MsgStore :=
  [{ freshMsg 0 1 3 4 1 with isActive := true }]

/-- The node of the C3 witness: node 3 (the target), which has just accepted
the copy of message 0 from sender 2 with path `[1, 2]`. -/
def c3Node : NodeState :=
  { id := 3, neighbors := [2], pending := [], received := [⟨0, 2, [1, 2]⟩],
    receivedMessageIds := [0], seenMessageCopies := [(0, 2)], collision := false,
    sending := false, receiving := false, knowledgeTree := [] }

/-- **C3 witness.** At the concrete state, processing the inbox marks the
message as received by its target, and the target emits no transmission
records for it. -/
theorem claim3_target_never_forwards_witness :
    (msGetD (processReceivedMessages c3Store c3Node 2).1 0).targetReceived = true
    ∧ transmissionsForEntry c3Node (msGetD c3Store 0) [1, 2, 3] 1 "flooding" = [] :=
  ⟨(claim3_target_never_forwards c3Store c3Node 2 ⟨0, 2, [1, 2]⟩
      (by decide) (by decide) (by decide)).1,
   (claim3_target_never_forwards c3Store c3Node 2 ⟨0, 2, [1, 2]⟩
      (by decide) (by decide) (by decide)).2 c3Node (msGetD c3Store 0)
      [1, 2, 3] 1 "flooding" (by decide)⟩

/-! ## Network-store lemmas (claim C4) -/

/-- Whether a node id is present in the network map. -/
def netHas (net : Net) (nid : Nat) : Bool :=
  (net.find? (fun n => n.id == nid)).isSome

/-- How a node read goes through an id-preserving node update. -/
theorem netGetD_netUpdate (net : Net) (nid' nid : Nat)
    (f : NodeState → NodeState) (hid : ∀ n, n.id = nid' → (f n).id = n.id) :
    netGetD (netUpdate net nid' f) nid =
      if nid = nid' ∧ netHas net nid = true then f (netGetD net nid)
      else netGetD net nid := by
  unfold netGetD netHas netUpdate
  induction net with
  | nil => simp
  | cons n net' ih =>
    simp only [List.map_cons]
    by_cases hn : (n.id == nid) = true
    · have hnid : n.id = nid := by simpa using hn
      have hhead : (((if n.id == nid' then f n else n).id == nid)) = true := by
        by_cases h' : (n.id == nid') = true
        · rw [if_pos h']
          rw [hid n (by simpa using h')]
          exact hn
        · rw [if_neg h']
          exact hn
      simp only [List.find?_cons, hhead, hn]
      by_cases h' : (n.id == nid') = true
      · have hmm : nid = nid' := by
          rw [← hnid]
          simpa using h'
        rw [if_pos h', if_pos ⟨hmm, by simp⟩]
        simp
      · have hmm : ¬ nid = nid' := by
          intro hc
          apply h'
          rw [hnid, hc]
          simp
        rw [if_neg h', if_neg (fun hc => hmm hc.1)]
    · have hhead : (((if n.id == nid' then f n else n).id == nid)) = false := by
        rw [Bool.eq_false_iff]
        intro hc
        apply hn
        by_cases h' : (n.id == nid') = true
        · rw [if_pos h', hid n (by simpa using h')] at hc
          exact hc
        · rw [if_neg h'] at hc
          exact hc
      have hnf : (n.id == nid) = false := by
        rw [Bool.eq_false_iff]; exact hn
      simp only [List.find?_cons, hhead, hnf]
      exact ih

/-- Updates of other nodes do not change a read. -/
theorem netGetD_netUpdate_ne (net : Net) (nid' nid : Nat)
    (f : NodeState → NodeState) (hid : ∀ n, n.id = nid' → (f n).id = n.id)
    (hne : nid ≠ nid') :
    netGetD (netUpdate net nid' f) nid = netGetD net nid := by
  rw [netGetD_netUpdate net nid' nid f hid, if_neg (fun hc => hne hc.1)]

/-- Presence of ids survives id-preserving updates. -/
theorem netHas_netUpdate (net : Net) (nid' nid : Nat)
    (f : NodeState → NodeState) (hid : ∀ n, n.id = nid' → (f n).id = n.id) :
    netHas (netUpdate net nid' f) nid = netHas net nid := by
  unfold netHas netUpdate
  cases h : (net.find? (fun n => n.id == nid)).isSome with
  | true =>
    rw [List.find?_isSome] at h ⊢
    obtain ⟨n, hn, hp⟩ := h
    refine ⟨if n.id == nid' then f n else n, List.mem_map_of_mem _ hn, ?_⟩
    by_cases h' : (n.id == nid') = true
    · rw [if_pos h', hid n (by simpa using h')]
      exact hp
    · rw [if_neg h']
      exact hp
  | false =>
    rw [Bool.eq_false_iff] at h ⊢
    intro hc
    apply h
    rw [List.find?_isSome] at hc ⊢
    obtain ⟨n', hn', hp⟩ := hc
    obtain ⟨n, hn, rfl⟩ := List.mem_map.mp hn'
    refine ⟨n, hn, ?_⟩
    by_cases h' : (n.id == nid') = true
    · rw [if_pos h', hid n (by simpa using h')] at hp
      exact hp
    · rw [if_neg h'] at hp
      exact hp

/-- `receive_message_copy` never changes the node's id. -/
theorem receiveMessageCopy_id (n : NodeState) (m : MsgState) (sid : Nat)
    (sp : List Nat) : ((receiveMessageCopy n m sid sp).2).id = n.id := by
  unfold receiveMessageCopy
  repeat' split
  all_goals rfl

/-- A defaulted network read always carries the requested id. -/
theorem netGetD_id (net : Net) (nid : Nat) : (netGetD net nid).id = nid := by
  unfold netGetD
  cases h : net.find? (fun n => n.id == nid) with
  | none => rfl
  | some n =>
    have hp := List.find?_some h
    simpa using hp

/-- Membership in the first-occurrence receiver list of `_detect_collisions`. -/
theorem mem_queueReceivers_fold :
    ∀ (q : List TransRecord) (acc : List Nat) (x : Nat),
      (x ∈ q.foldl
        (fun acc tr => if tr.receiver ∈ acc then acc else acc ++ [tr.receiver]) acc)
      ↔ x ∈ acc ∨ ∃ tr ∈ q, tr.receiver = x := by
  intro q
  induction q with
  | nil => simp
  | cons tr tl ih =>
    intro acc x
    simp only [List.foldl_cons]
    by_cases hmem : tr.receiver ∈ acc
    · rw [if_pos hmem, ih]
      constructor
      · rintro (h | ⟨tr', h1, h2⟩)
        · exact Or.inl h
        · exact Or.inr ⟨tr', List.mem_cons_of_mem _ h1, h2⟩
      · rintro (h | ⟨tr', h1, h2⟩)
        · exact Or.inl h
        · rcases List.mem_cons.mp h1 with h1 | h1
          · exact Or.inl (by rw [← h2, h1]; exact hmem)
          · exact Or.inr ⟨tr', h1, h2⟩
    · rw [if_neg hmem, ih]
      constructor
      · rintro (h | ⟨tr', h1, h2⟩)
        · rcases List.mem_append.mp h with h | h
          · exact Or.inl h
          · exact Or.inr ⟨tr, List.mem_cons_self _ _, (List.mem_singleton.mp h).symm⟩
        · exact Or.inr ⟨tr', List.mem_cons_of_mem _ h1, h2⟩
      · rintro (h | ⟨tr', h1, h2⟩)
        · exact Or.inl (List.mem_append.mpr (Or.inl h))
        · rcases List.mem_cons.mp h1 with h1 | h1
          · subst h1
            exact Or.inl (List.mem_append.mpr (Or.inr (List.mem_singleton.mpr h2.symm)))
          · exact Or.inr ⟨tr', h1, h2⟩

/-- A receiver is a collision victim exactly when at least two records of the
frame address it. -/
theorem mem_collisionNodes (queue : List TransRecord) (r : Nat) :
    r ∈ collisionNodes queue ↔ 2 ≤ countTo queue r := by
  unfold collisionNodes queueReceivers
  rw [List.mem_filter, mem_queueReceivers_fold]
  constructor
  · rintro ⟨_, h2⟩
    have := of_decide_eq_true h2
    omega
  · intro h2
    have hpos : 0 < (queue.filter (fun tr => tr.receiver == r)).length := by
      unfold countTo at h2
      omega
    obtain ⟨tr, htr⟩ := List.exists_mem_of_length_pos hpos
    have := List.mem_filter.mp htr
    refine ⟨Or.inr ⟨tr, this.1, by simpa using this.2⟩, ?_⟩
    exact decide_eq_true (by omega)

/-- The collision marking sets the flag of every victim present in the
network. -/
theorem markCollisions_flag :
    ∀ (L : List Nat) (net : Net) (r : Nat), r ∈ L → netHas net r = true →
      (netGetD (L.foldl
        (fun acc x => netUpdate acc x (fun n => { n with collision := true })) net) r).collision
        = true := by
  intro L
  induction L with
  | nil => intro net r h; cases h
  | cons x tl ih =>
    intro net r hr hhas
    simp only [List.foldl_cons]
    rcases List.mem_cons.mp hr with h | h
    · subst h
      -- set now, preserved by the rest of the fold
      have hset : (netGetD (netUpdate net r (fun n => { n with collision := true })) r).collision
          = true := by
        rw [netGetD_netUpdate net r r (fun n => { n with collision := true })
          (fun n _ => rfl), if_pos ⟨rfl, hhas⟩]
      have hkeep : ∀ (L' : List Nat) (net' : Net),
          (netGetD net' r).collision = true →
          (netGetD (L'.foldl
            (fun acc x => netUpdate acc x (fun n => { n with collision := true })) net') r).collision
            = true := by
        intro L'
        induction L' with
        | nil => exact fun net' h => h
        | cons y tl' ih' =>
          intro net' h
          simp only [List.foldl_cons]
          apply ih'
          rw [netGetD_netUpdate net' y r (fun n => { n with collision := true })
            (fun n _ => rfl)]
          split
          · rfl
          · exact h
      exact hkeep tl _ hset
    · apply ih _ r h
      rw [netHas_netUpdate net x r (fun n => { n with collision := true })
        (fun n _ => rfl)]
      exact hhas

/-- The collision marking leaves non-victims untouched. -/
theorem markCollisions_not_mem :
    ∀ (L : List Nat) (net : Net) (r : Nat), r ∉ L →
      netGetD (L.foldl
        (fun acc x => netUpdate acc x (fun n => { n with collision := true })) net) r
        = netGetD net r := by
  intro L
  induction L with
  | nil => intro net r _; rfl
  | cons x tl ih =>
    intro net r hr
    simp only [List.foldl_cons]
    rw [ih _ r (fun h => hr (List.mem_cons_of_mem _ h))]
    rw [netGetD_netUpdate_ne net x r (fun n => { n with collision := true })
      (fun n _ => rfl) (fun h => hr (h ▸ List.mem_cons_self _ _))]

/-- The collision marking touches no field but the collision flag. -/
theorem markCollisions_received :
    ∀ (L : List Nat) (net : Net) (r : Nat),
      (netGetD (L.foldl
        (fun acc x => netUpdate acc x (fun n => { n with collision := true })) net) r).received
        = (netGetD net r).received := by
  intro L
  induction L with
  | nil => intro net r; rfl
  | cons x tl ih =>
    intro net r
    simp only [List.foldl_cons]
    rw [ih]
    rw [netGetD_netUpdate net x r (fun n => { n with collision := true })
      (fun n _ => rfl)]
    split
    · rfl
    · rfl

/-- The delivery fold never touches a collision victim's node state. -/
theorem processReceptions_skips_collisions (σ : MsgStore) (collisions : List Nat) :
    ∀ (q : List TransRecord) (net : Net) (acc : List (Nat × Nat × Nat)) (r : Nat),
      r ∈ collisions →
      netGetD (q.foldl
        (fun (st : Net × List (Nat × Nat × Nat)) tr =>
          let (acc, successes) := st
          if tr.receiver ∈ collisions then (acc, successes)
          else
            let node := netGetD acc tr.receiver
            let (accepted, node') := receiveMessageCopy node (msGetD σ tr.mid) tr.sender tr.path
            (netUpdate acc tr.receiver (fun _ => node'),
             if accepted then successes ++ [(tr.sender, tr.receiver, tr.mid)] else successes))
        (net, acc)).1 r
      = netGetD net r := by
  intro q
  induction q with
  | nil => intro net acc r _; rfl
  | cons tr tl ih =>
    intro net acc r hr
    simp only [List.foldl_cons]
    by_cases hc : tr.receiver ∈ collisions
    · rw [if_pos hc]
      exact ih net acc r hr
    · rw [if_neg hc]
      rw [ih _ _ r hr]
      refine netGetD_netUpdate_ne net tr.receiver r _ ?_ (fun h => hc (h ▸ hr))
      intro n hn
      show (receiveMessageCopy (netGetD net tr.receiver) (msGetD σ tr.mid)
        tr.sender tr.path).2.id = n.id
      rw [receiveMessageCopy_id, netGetD_id, hn]

/-- Every success recorded by the delivery fold names a receiver outside the
collision set. -/
theorem processReceptions_successes (σ : MsgStore) (collisions : List Nat) :
    ∀ (q : List TransRecord) (net : Net) (acc : List (Nat × Nat × Nat)),
      (∀ s ∈ acc, s.2.1 ∉ collisions) →
      ∀ s ∈ (q.foldl
        (fun (st : Net × List (Nat × Nat × Nat)) tr =>
          let (acc, successes) := st
          if tr.receiver ∈ collisions then (acc, successes)
          else
            let node := netGetD acc tr.receiver
            let (accepted, node') := receiveMessageCopy node (msGetD σ tr.mid) tr.sender tr.path
            (netUpdate acc tr.receiver (fun _ => node'),
             if accepted then successes ++ [(tr.sender, tr.receiver, tr.mid)] else successes))
        (net, acc)).2, s.2.1 ∉ collisions := by
  intro q
  induction q with
  | nil => intro net acc hacc; exact hacc
  | cons tr tl ih =>
    intro net acc hacc
    simp only [List.foldl_cons]
    by_cases hc : tr.receiver ∈ collisions
    · rw [if_pos hc]
      exact ih net acc hacc
    · rw [if_neg hc]
      apply ih
      intro s hs
      split at hs
      · rcases List.mem_append.mp hs with h | h
        · exact hacc s h
        · rw [List.mem_singleton.mp h]
          exact hc
      · exact hacc s hs

/-! ## Claim C4 -/

/-- **C4.** In every tick, a receiver addressed by two or more transmission
records is a collision victim: `_detect_collisions` lists it and sets its
collision flag, and `_process_receptions` delivers none of the records to it,
so its per-frame inbox is still empty after the delivery step (the inbox was
cleared by the frame reset) and no success triple names it.  A receiver with
exactly one record is not a collision victim and is untouched by the collision
marking. -/
theorem claim4_collision_victims (σ : MsgStore) (net : Net)
    (queue : List TransRecord) (r : Nat)
    (hpres : netHas net r = true)
    (hinbox : (netGetD net r).received = []) :
    (2 ≤ countTo queue r →
      r ∈ collisionNodes queue
      ∧ (netGetD (markCollisions net queue) r).collision = true
      ∧ (netGetD (processReceptions σ (markCollisions net queue) queue
            (collisionNodes queue)).1 r).received = []
      ∧ ∀ s ∈ (processReceptions σ (markCollisions net queue) queue
            (collisionNodes queue)).2, s.2.1 ≠ r)
    ∧ (countTo queue r = 1 →
      r ∉ collisionNodes queue
      ∧ netGetD (markCollisions net queue) r = netGetD net r) := by
  constructor
  · intro h2
    have hrc : r ∈ collisionNodes queue := (mem_collisionNodes queue r).mpr h2
    refine ⟨hrc, ?_, ?_, ?_⟩
    · unfold markCollisions
      exact markCollisions_flag (collisionNodes queue) net r hrc hpres
    · unfold processReceptions
      rw [processReceptions_skips_collisions σ (collisionNodes queue) queue
        (markCollisions net queue) [] r hrc]
      unfold markCollisions
      rw [markCollisions_received (collisionNodes queue) net r]
      exact hinbox
    · intro s hs
      intro heq
      apply processReceptions_successes σ (collisionNodes queue) queue
        (markCollisions net queue) [] (by intro s' h'; cases h') s hs
      rw [heq]
      exact hrc
  · intro h1
    have hnc : r ∉ collisionNodes queue := by
      rw [mem_collisionNodes]
      omega
    refine ⟨hnc, ?_⟩
    unfold markCollisions
    exact markCollisions_not_mem (collisionNodes queue) net r hnc

/-- The network of the C4 witness: centre 0 and leaves 1, 2, 3. -/
def c4Net : Net :=
  [{ id := 0, neighbors := [1, 2, 3], pending := [], received := [],
     receivedMessageIds := [], seenMessageCopies := [], collision := false,
     sending := false, receiving := false, knowledgeTree := [] },
   { id := 1, neighbors := [0], pending := [], received := [],
     receivedMessageIds := [], seenMessageCopies := [], collision := false,
     sending := false, receiving := false, knowledgeTree := [] },
   { id := 2, neighbors := [0], pending := [], received := [],
     receivedMessageIds := [], seenMessageCopies := [], collision := false,
     sending := false, receiving := false, knowledgeTree := [] },
   { id := 3, neighbors := [0], pending := [], received := [],
     receivedMessageIds := [], seenMessageCopies := [], collision := false,
     sending := false, receiving := false, knowledgeTree := [] }]

/-- Two messages in flight for the C4 witness. -/
def c4Store : MsgStore :=
  [{ freshMsg 10 1 3 4 1 with isActive := true },
   { freshMsg 11 2 3 4 1 with isActive := true }]

/-- The frame's transmission records for the C4 witness: nodes 1 and 2 both
transmit to node 0 (a collision), and node 1 also transmits to node 3 (a
single record). -/
def c4Queue : List TransRecord :=
  [⟨1, 0, 10, [1], 3⟩, ⟨2, 0, 11, [2], 3⟩, ⟨1, 3, 10, [1], 3⟩]

/-- **C4 witness.** Node 0 (two records) is a collision victim with the flag
set and an empty inbox; node 3 (one record) is not a victim and is untouched
by the marking. -/
theorem claim4_collision_victims_witness :
    (0 ∈ collisionNodes c4Queue
      ∧ (netGetD (markCollisions c4Net c4Queue) 0).collision = true
      ∧ (netGetD (processReceptions c4Store (markCollisions c4Net c4Queue) c4Queue
            (collisionNodes c4Queue)).1 0).received = []
      ∧ ∀ s ∈ (processReceptions c4Store (markCollisions c4Net c4Queue) c4Queue
            (collisionNodes c4Queue)).2, s.2.1 ≠ 0)
    ∧ (3 ∉ collisionNodes c4Queue
      ∧ netGetD (markCollisions c4Net c4Queue) 3 = netGetD c4Net 3) :=
  ⟨(claim4_collision_victims c4Store c4Net c4Queue 0 (by decide) (by decide)).1
      (by decide),
   (claim4_collision_victims c4Store c4Net c4Queue 3 (by decide) (by decide)).2
      (by decide)⟩

/-! ## Claim C6 -/

/-- A tree without key `d` finds nothing under `d`. -/
theorem find?_eq_none_of_not_kHasKey {t : KTree} {d : Nat}
    (h : kHasKey t d = false) : t.find? (fun kv => kv.1 == d) = none := by
  rw [List.find?_eq_none]
  intro kv hkv hp
  unfold kHasKey at h
  rw [Bool.eq_false_iff] at h
  apply h
  rw [List.any_eq_true]
  exact ⟨kv, hkv, hp⟩

/-- What `kAppend` does to every lookup: the appended destination gains `e` at
the end of its entry list, all other destinations are unchanged. -/
theorem kLookup_kAppend (t : KTree) (d' d : Nat) (e : KEntry) :
    kLookup (kAppend t d' e) d =
      if d' = d then kLookup t d ++ [e] else kLookup t d := by
  unfold kAppend
  by_cases hk : kHasKey t d' = true
  · rw [if_pos hk]
    have hmap : ∀ (t' : KTree),
        kLookup (t'.map (fun kv => if kv.1 == d' then (kv.1, kv.2 ++ [e]) else kv)) d
          = match t'.find? (fun kv => kv.1 == d) with
            | some kv => if kv.1 == d' then kv.2 ++ [e] else kv.2
            | none => [] := by
      intro t'
      induction t' with
      | nil => rfl
      | cons kv tl ihm =>
        by_cases hd : (kv.1 == d) = true
        · have hhd : (((if kv.1 == d' then (kv.1, kv.2 ++ [e]) else kv).1 == d)) = true := by
            split
            · exact hd
            · exact hd
          unfold kLookup
          simp only [List.map_cons, List.find?_cons, hhd, hd]
          split
          · rfl
          · rfl
        · have hhd : (((if kv.1 == d' then (kv.1, kv.2 ++ [e]) else kv).1 == d)) = false := by
            rw [Bool.eq_false_iff]
            intro hc
            apply hd
            revert hc
            split
            · exact id
            · exact id
          have hdf : (kv.1 == d) = false := by rw [Bool.eq_false_iff]; exact hd
          unfold kLookup at ihm ⊢
          simp only [List.map_cons, List.find?_cons, hhd, hdf]
          exact ihm
    rw [hmap t]
    by_cases hdd : d' = d
    · subst hdd
      unfold kLookup
      cases hf : t.find? (fun kv => kv.1 == d') with
      | none =>
        exfalso
        unfold kHasKey at hk
        rw [List.any_eq_true] at hk
        obtain ⟨kv, hkv, hp⟩ := hk
        rw [List.find?_eq_none] at hf
        exact absurd hp (by simpa using hf kv hkv)
      | some kv =>
        have hp := List.find?_some hf
        simp [hp]
    · rw [if_neg hdd]
      unfold kLookup
      cases hf : t.find? (fun kv => kv.1 == d) with
      | none => rfl
      | some kv =>
        have hp : kv.1 = d := by simpa using List.find?_some hf
        have hpf : (kv.1 == d') = false := by
          rw [Bool.eq_false_iff]
          intro hc
          exact hdd (by rw [← hp]; exact ((by simpa using hc : kv.1 = d')).symm)
        simp [hpf]
  · rw [if_neg hk]
    rw [Bool.not_eq_true] at hk
    by_cases hdd : d' = d
    · subst hdd
      unfold kLookup
      rw [List.find?_append, find?_eq_none_of_not_kHasKey hk]
      rw [if_pos rfl]
      simp [List.find?_cons]
    · rw [if_neg hdd]
      unfold kLookup
      rw [List.find?_append]
      have h2 : ([(d', [e])].find? (fun kv => kv.1 == d)) = none := by
        rw [List.find?_eq_none]
        intro kv hkv hp
        rw [List.mem_singleton.mp hkv] at hp
        exact hdd (by simpa using hp)
      rw [h2]
      cases t.find? (fun kv => kv.1 == d) <;> rfl

/-- Lookup through the learning fold of `build_knowledge_tree_from_message`:
every processed index with destination `d` appends its entry, in index
order. -/
theorem kLookup_build_fold (selfId : Nat) (p : List Nat) (j fr : Nat) :
    ∀ (l : List Nat) (t : KTree) (d : Nat),
      kLookup (l.foldl
        (fun acc i => kAppend acc (p.getD i 0) (mkTreeEntry selfId p j fr i)) t) d
        = kLookup t d
          ++ (l.filter (fun i => p.getD i 0 == d)).map (mkTreeEntry selfId p j fr) := by
  intro l
  induction l with
  | nil => intro t d; simp
  | cons i tl ih =>
    intro t d
    simp only [List.foldl_cons, List.filter_cons]
    rw [ih, kLookup_kAppend]
    by_cases hfd : p.getD i 0 = d
    · rw [if_pos hfd, if_pos (by simpa using hfd)]
      simp [List.append_assoc]
    · rw [if_neg hfd, if_neg (by simpa using hfd)]

/-- **C6 counterexample.** The learning path `[7, 3, 7]` ends at node 7 (a
target-arrival of node 7's own learning message, reachable because the
learning phase does not mark the source's `received_message_ids` and flooding
does not exclude the previous hop), yet `build_knowledge_tree_from_message`
appends *nothing*: `path.index(self.id)` finds the *first* occurrence (index
0), so the loop body never runs.  The claim, read at `k = 2`, requires one
entry under destination `p₁ = 3` with distance 1. -/
theorem claim6_counterexample :
    [7, 3, 7].getLast? = some 7
    ∧ buildKnowledgeTreeFromMessage 7 [] [7, 3, 7] 0 = []
    ∧ kLookup (buildKnowledgeTreeFromMessage 7 [] [7, 3, 7] 0) 3 = [] := by
  refine ⟨rfl, by decide, by decide⟩

/-- **C6 amended.** For every observed path `p = [p₀, …, p_k]` ending at the
node (`p_k = self.id`), with `j` the *first* index of `self.id` in `p`, the
knowledge update appends, for each `i ∈ [0, j)`, exactly one entry under
destination `p_i` with distance `j - i`, parent `p_{i+1}` when that distance
is ≥ 2 and `self.id` when it is 1, next hop `p_{j-1}`, and learned frame `t`;
no existing entry is removed, pruned, or deduplicated.  When `self.id` occurs
only at the end (`j = k`), this is exactly the originally claimed behaviour. -/
theorem claim6_build_characterization (selfId : Nat) (t : KTree) (p : List Nat)
    (fr : Nat) (hlast : p.getLast? = some selfId) (d : Nat) :
    kLookup (buildKnowledgeTreeFromMessage selfId t p fr) d
      = kLookup t d
        ++ ((List.range (p.indexOf selfId)).filter (fun i => p.getD i 0 == d)).map
            (mkTreeEntry selfId p (p.indexOf selfId) fr) := by
  unfold buildKnowledgeTreeFromMessage
  by_cases hlen : p.length < 2
  · rw [if_pos hlen]
    have hp : p = [selfId] := by
      cases p with
      | nil => cases hlast
      | cons a l =>
        cases l with
        | nil =>
          have : a = selfId := by simpa using hlast
          rw [this]
        | cons b l' => exact absurd hlen (by simp)
    rw [hp]
    simp
  · rw [if_neg hlen]
    have hmem : selfId ∈ p := List.mem_of_getLast?_eq_some hlast
    rw [if_pos hmem]
    exact kLookup_build_fold selfId p (p.indexOf selfId) fr
      (List.range (p.indexOf selfId)) t d

/-- **C6 amended, witness.** Learning from the path `[5, 3, 7]` at node 7 in
frame 1: destination 5 gains the entry (parent 3, distance 2, next hop 3) and
destination 3 gains (parent 7, distance 1, next hop 3). -/
theorem claim6_build_characterization_witness :
    kLookup (buildKnowledgeTreeFromMessage 7 [] [5, 3, 7] 1) 5
      = [⟨3, 2, 1, some 3⟩]
    ∧ kLookup (buildKnowledgeTreeFromMessage 7 [] [5, 3, 7] 1) 3
      = [⟨7, 1, 1, some 3⟩] :=
  ⟨(claim6_build_characterization 7 [] [5, 3, 7] 1 rfl 5).trans (by decide),
   (claim6_build_characterization 7 [] [5, 3, 7] 1 rfl 3).trans (by decide)⟩

/-! ## Claim C8 -/

/-- Completing one message does not change any entry's effective budget. -/
theorem effBudget_msUpdate_complete (σ : MsgStore) (mid : Nat) (e : OutEntry) :
    effBudget (msUpdate σ mid (completeMessageV2 "hop_limit_exceeded")) e
      = effBudget σ e := by
  unfold effBudget
  cases e.budget with
  | some b => rfl
  | none =>
    rw [msGetD_field_eq (fun m => m.hopLimit) σ mid e.mid
      (completeMessageV2 "hop_limit_exceeded") (fun m => rfl) (fun m => rfl)]

/-- Unfolding the sweep on an expiring head entry. -/
theorem sweepEntries_cons_pos (σ : MsgStore) (e : OutEntry) (rest : List OutEntry)
    (h : effBudget σ e ≤ 0 ∧ (!(msGetD σ e.mid).isCompleted) = true) :
    sweepEntries σ (e :: rest)
      = sweepEntries (msUpdate σ e.mid (completeMessageV2 "hop_limit_exceeded")) rest := by
  simp only [sweepEntries]
  rw [if_pos h]

/-- Unfolding the sweep on a kept head entry. -/
theorem sweepEntries_cons_neg (σ : MsgStore) (e : OutEntry) (rest : List OutEntry)
    (h : ¬(effBudget σ e ≤ 0 ∧ (!(msGetD σ e.mid).isCompleted) = true)) :
    sweepEntries σ (e :: rest)
      = ((sweepEntries σ rest).1, e :: (sweepEntries σ rest).2) := by
  simp only [sweepEntries]
  rw [if_neg h]

/-- A completed message stays completed throughout the sweep. -/
theorem sweepEntries_completed_mono :
    ∀ (l : List OutEntry) (σ : MsgStore) (mid : Nat),
      (msGetD σ mid).isCompleted = true →
      (msGetD (sweepEntries σ l).1 mid).isCompleted = true := by
  intro l
  induction l with
  | nil => exact fun σ mid h => h
  | cons e rest ih =>
    intro σ mid h
    by_cases hcond : effBudget σ e ≤ 0 ∧ (!(msGetD σ e.mid).isCompleted) = true
    · rw [sweepEntries_cons_pos σ e rest hcond]
      apply ih
      exact msGetD_mono_true (fun m => m.isCompleted) σ e.mid mid
        (completeMessageV2 "hop_limit_exceeded") (fun m => rfl) (fun m _ => rfl) h
    · rw [sweepEntries_cons_neg σ e rest hcond]
      exact ih σ mid h

/-- The sweep never changes which message ids are present. -/
theorem sweepEntries_isSome :
    ∀ (l : List OutEntry) (σ : MsgStore) (mid : Nat),
      (msGet? (sweepEntries σ l).1 mid).isSome = (msGet? σ mid).isSome := by
  intro l
  induction l with
  | nil => exact fun σ mid => rfl
  | cons e rest ih =>
    intro σ mid
    by_cases hcond : effBudget σ e ≤ 0 ∧ (!(msGetD σ e.mid).isCompleted) = true
    · rw [sweepEntries_cons_pos σ e rest hcond, ih,
        msGet?_isSome_msUpdate σ e.mid mid (completeMessageV2 "hop_limit_exceeded")
          (fun m => rfl)]
    · rw [sweepEntries_cons_neg σ e rest hcond]
      exact ih σ mid

/-- The full behavioural characterisation of the per-node expiry sweep. -/
theorem sweepEntries_spec :
    ∀ (l : List OutEntry) (σ : MsgStore),
      (∀ e ∈ l, (msGet? σ e.mid).isSome = true) →
      (∀ e ∈ (sweepEntries σ l).2, e ∈ l)
      ∧ (∀ e ∈ l, 0 < effBudget σ e → e ∈ (sweepEntries σ l).2)
      ∧ (∀ e ∈ l, (msGetD σ e.mid).isCompleted = true → e ∈ (sweepEntries σ l).2)
      ∧ (∀ e ∈ l, effBudget σ e ≤ 0 →
          (msGetD (sweepEntries σ l).1 e.mid).isCompleted = true)
      ∧ (∀ mid, msGetD (sweepEntries σ l).1 mid ≠ msGetD σ mid →
          (msGetD σ mid).isCompleted = false
          ∧ msGetD (sweepEntries σ l).1 mid
              = completeMessageV2 "hop_limit_exceeded" (msGetD σ mid)
          ∧ ∃ e ∈ l, e.mid = mid ∧ effBudget σ e ≤ 0) := by
  intro l
  induction l with
  | nil =>
    intro σ _
    exact ⟨fun e h => h, fun e h => absurd h (by simp),
      fun e h => absurd h (by simp), fun e h => absurd h (by simp),
      fun mid h => absurd rfl h⟩
  | cons e rest ih =>
    intro σ hpres
    have hpres_head := hpres e (List.mem_cons_self _ _)
    by_cases hcond : effBudget σ e ≤ 0 ∧ (!(msGetD σ e.mid).isCompleted) = true
    · -- the head entry expires: the message is completed and the entry removed
      rw [sweepEntries_cons_pos σ e rest hcond]
      set σ₁ := msUpdate σ e.mid (completeMessageV2 "hop_limit_exceeded") with hσ₁
      have hpres₁ : ∀ e' ∈ rest, (msGet? σ₁ e'.mid).isSome = true := by
        intro e' he'
        rw [hσ₁, msGet?_isSome_msUpdate σ e.mid e'.mid
          (completeMessageV2 "hop_limit_exceeded") (fun m => rfl)]
        exact hpres e' (List.mem_cons_of_mem _ he')
      obtain ⟨i1, i2, i3, i4, i5⟩ := ih σ₁ hpres₁
      have heff : ∀ e' : OutEntry, effBudget σ₁ e' = effBudget σ e' := by
        intro e'
        rw [hσ₁]
        exact effBudget_msUpdate_complete σ e.mid e'
      have hread : msGetD σ₁ e.mid
          = completeMessageV2 "hop_limit_exceeded" (msGetD σ e.mid) := by
        rw [hσ₁]
        exact msGetD_msUpdate_self σ e.mid _ (fun m => rfl) hpres_head
      have hnotc : (msGetD σ e.mid).isCompleted = false := by
        have := hcond.2
        rwa [Bool.not_eq_true'] at this
      refine ⟨?_, ?_, ?_, ?_, ?_⟩
      · intro e' he'
        exact List.mem_cons_of_mem _ (i1 e' he')
      · intro e' he' hb
        rcases List.mem_cons.mp he' with h | h
        · subst h
          exact absurd hcond.1 (by omega)
        · exact i2 e' h (by rw [heff]; exact hb)
      · intro e' he' hc
        rcases List.mem_cons.mp he' with h | h
        · subst h
          rw [hnotc] at hc
          cases hc
        · refine i3 e' h ?_
          rw [hσ₁, msGetD_msUpdate σ e.mid e'.mid
            (completeMessageV2 "hop_limit_exceeded") (fun m => rfl)]
          split
          · rfl
          · exact hc
      · intro e' he' hb
        rcases List.mem_cons.mp he' with h | h
        · apply sweepEntries_completed_mono rest σ₁ e'.mid
          rw [h, hread]
          rfl
        · exact i4 e' h (by rw [heff]; exact hb)
      · intro mid hne
        by_cases hmid : mid = e.mid
        · have hc₁ : (msGetD σ₁ mid).isCompleted = true := by
            rw [hmid, hread]
            rfl
          have hfinal : msGetD (sweepEntries σ₁ rest).1 mid = msGetD σ₁ mid := by
            by_contra hne'
            exact absurd (i5 mid hne').1 (by rw [hc₁]; simp)
          refine ⟨by rw [hmid]; exact hnotc, ?_,
            ⟨e, List.mem_cons_self _ _, hmid.symm, hcond.1⟩⟩
          rw [hfinal, hmid]
          exact hread
        · have hσ₁read : msGetD σ₁ mid = msGetD σ mid := by
            rw [hσ₁]
            exact msGetD_msUpdate_ne σ e.mid mid _ (fun m => rfl) hmid
          have hne₁ : msGetD (sweepEntries σ₁ rest).1 mid ≠ msGetD σ₁ mid := by
            rw [hσ₁read]
            exact hne
          obtain ⟨j1, j2, j3⟩ := i5 mid hne₁
          refine ⟨by rw [← hσ₁read]; exact j1, by rw [j2, hσ₁read], ?_⟩
          obtain ⟨e', he', hme', hbe'⟩ := j3
          exact ⟨e', List.mem_cons_of_mem _ he', hme', by rw [← heff]; exact hbe'⟩
    · -- the head entry is kept
      rw [sweepEntries_cons_neg σ e rest hcond]
      have hpres' : ∀ e' ∈ rest, (msGet? σ e'.mid).isSome = true :=
        fun e' he' => hpres e' (List.mem_cons_of_mem _ he')
      obtain ⟨i1, i2, i3, i4, i5⟩ := ih σ hpres'
      refine ⟨?_, ?_, ?_, ?_, ?_⟩
      · intro e' he'
        rcases List.mem_cons.mp he' with h | h
        · exact h ▸ List.mem_cons_self _ _
        · exact List.mem_cons_of_mem _ (i1 e' h)
      · intro e' he' hb
        rcases List.mem_cons.mp he' with h | h
        · exact h ▸ List.mem_cons_self _ _
        · exact List.mem_cons_of_mem _ (i2 e' h hb)
      · intro e' he' hc
        rcases List.mem_cons.mp he' with h | h
        · exact h ▸ List.mem_cons_self _ _
        · exact List.mem_cons_of_mem _ (i3 e' h hc)
      · intro e' he' hb
        rcases List.mem_cons.mp he' with h | h
        · subst h
          have hc : (msGetD σ e'.mid).isCompleted = true := by
            by_contra hcc
            exact hcond ⟨hb, by rw [Bool.not_eq_true] at hcc; rw [hcc]; rfl⟩
          exact sweepEntries_completed_mono rest σ e'.mid hc
        · exact i4 e' h hb
      · intro mid hne
        obtain ⟨j1, j2, j3⟩ := i5 mid hne
        obtain ⟨e', he', hme', hbe'⟩ := j3
        exact ⟨j1, j2, e', List.mem_cons_of_mem _ he', hme', hbe'⟩

/-- Every stalled message is completed by `_check_stalled_messages` with
reason `hop_limit_exceeded` and finalised `FAILED` unless the target had
received it. -/
theorem checkStalled_spec (σ : MsgStore) (nodes : List NodeState) (m : MsgState)
    (hm : m ∈ σ) (ha : m.isActive = true) (hc : m.isCompleted = false)
    (hp : hasPendingAnywhere nodes m.id = false) :
    ∃ m' ∈ checkStalled σ nodes, m'.id = m.id ∧ m'.isCompleted = true
      ∧ m'.completionReason = some "hop_limit_exceeded"
      ∧ m'.status = (if m.targetReceived then "SUCCESS" else "FAILED") := by
  unfold checkStalled
  refine ⟨completeMessageV2 "hop_limit_exceeded" m,
    List.mem_map.mpr ⟨m, hm, ?_⟩, rfl, rfl, rfl, rfl⟩
  rw [if_pos (by simp [ha, hc, hp])]

/-- **C8 counterexample.** An outbox entry with exhausted budget whose message
is *already completed* is left in place by the expiry sweep (the source only
collects `expired_indices` inside the `not message.is_completed` branch); the
claim requires every such entry to be removed. -/
theorem claim8_counterexample :
    effBudget [{ freshMsg 0 1 2 4 1 with isCompleted := true, isActive := false }]
        ⟨0, [1, 2], some 0⟩ ≤ 0
    ∧ (sweepEntries [{ freshMsg 0 1 2 4 1 with isCompleted := true, isActive := false }]
        [⟨0, [1, 2], some 0⟩]).2 = [⟨0, [1, 2], some 0⟩] := by
  refine ⟨by decide, by decide⟩

/-- **C8 amended.** In the expiry sweep, an outbox entry with remaining hop
budget ≤ 0 whose message is not already completed when the entry is examined
**is removed** and its message completed with reason `hop_limit_exceeded`; an
entry whose message is already completed is left in place (the
transmission-collection filter discards it later); entries with positive
budget, and entries of already-completed messages, are always kept; the sweep
changes a message only by completing it that way, and only when some listed
entry with exhausted budget names it.  Additionally, every active,
not-completed message with no outbox entry on any node is completed with the
same reason and finalised `FAILED` unless `target_received` is true.

The removal itself is stated by the middle block: the sweep examines entries
in order, and examining an exhausted-budget entry of a not-yet-completed
message yields the sweep of the *remaining* entries against the completed
store — the examined entry is dropped from the output — while examining any
other entry keeps it in place in the output.  Together with the empty-list
equation these three clauses determine the sweep completely, so the proven
conjuncts are not satisfiable by a sweep that removes nothing. -/
theorem claim8_expiry_sweep (σ : MsgStore) (l : List OutEntry)
    (hpres : ∀ e ∈ l, (msGet? σ e.mid).isSome = true) :
    ((∀ e ∈ (sweepEntries σ l).2, e ∈ l)
      ∧ (∀ e ∈ l, 0 < effBudget σ e → e ∈ (sweepEntries σ l).2)
      ∧ (∀ e ∈ l, (msGetD σ e.mid).isCompleted = true → e ∈ (sweepEntries σ l).2)
      ∧ (∀ e ∈ l, effBudget σ e ≤ 0 →
          (msGetD (sweepEntries σ l).1 e.mid).isCompleted = true)
      ∧ (∀ mid, msGetD (sweepEntries σ l).1 mid ≠ msGetD σ mid →
          (msGetD σ mid).isCompleted = false
          ∧ msGetD (sweepEntries σ l).1 mid
              = completeMessageV2 "hop_limit_exceeded" (msGetD σ mid)
          ∧ ∃ e ∈ l, e.mid = mid ∧ effBudget σ e ≤ 0))
    ∧ ((∀ σ'' : MsgStore, sweepEntries σ'' [] = (σ'', []))
      ∧ (∀ (σ' : MsgStore) (e : OutEntry) (rest : List OutEntry),
          effBudget σ' e ≤ 0 → (msGetD σ' e.mid).isCompleted = false →
          sweepEntries σ' (e :: rest)
            = sweepEntries (msUpdate σ' e.mid (completeMessageV2 "hop_limit_exceeded")) rest)
      ∧ (∀ (σ' : MsgStore) (e : OutEntry) (rest : List OutEntry),
          ¬(effBudget σ' e ≤ 0 ∧ (msGetD σ' e.mid).isCompleted = false) →
          sweepEntries σ' (e :: rest)
            = ((sweepEntries σ' rest).1, e :: (sweepEntries σ' rest).2)))
    ∧ (∀ (σN : MsgStore) (nodes : List NodeState) (m : MsgState),
        m ∈ σN → m.isActive = true → m.isCompleted = false →
        hasPendingAnywhere nodes m.id = false →
        ∃ m' ∈ checkStalled σN nodes, m'.id = m.id ∧ m'.isCompleted = true
          ∧ m'.completionReason = some "hop_limit_exceeded"
          ∧ m'.status = (if m.targetReceived then "SUCCESS" else "FAILED")) :=
  ⟨sweepEntries_spec l σ hpres,
   ⟨fun _ => rfl,
    fun σ' e rest hb hc =>
      sweepEntries_cons_pos σ' e rest ⟨hb, by rw [Bool.not_eq_true']; exact hc⟩,
    fun σ' e rest hcond =>
      sweepEntries_cons_neg σ' e rest (fun hand =>
        hcond ⟨hand.1, by have h2 := hand.2; rwa [Bool.not_eq_true'] at h2⟩)⟩,
   fun σN nodes m hm ha hc hp => checkStalled_spec σN nodes m hm ha hc hp⟩

/-- **C8 witness.** A concrete sweep: a budget-0 entry of a live message is
removed — the swept outbox is empty — and the message is completed; a
concrete stalled message is completed `FAILED`. -/
theorem claim8_expiry_sweep_witness :
    (msGetD (sweepEntries [{ freshMsg 1 0 2 4 1 with isActive := true }]
        [⟨1, [0, 1, 2, 3, 4], some 0⟩]).1 1).isCompleted = true
    ∧ (sweepEntries [{ freshMsg 1 0 2 4 1 with isActive := true }]
        [⟨1, [0, 1, 2, 3, 4], some 0⟩]).2 = []
    ∧ ∃ m' ∈ checkStalled [{ freshMsg 5 0 2 4 1 with isActive := true }] [],
        m'.id = 5 ∧ m'.isCompleted = true
          ∧ m'.completionReason = some "hop_limit_exceeded"
          ∧ m'.status = (if ({ freshMsg 5 0 2 4 1 with
              isActive := true } : MsgState).targetReceived then "SUCCESS"
            else "FAILED") := by
  refine ⟨?_, ?_, ?_⟩
  · exact (claim8_expiry_sweep [{ freshMsg 1 0 2 4 1 with isActive := true }]
      [⟨1, [0, 1, 2, 3, 4], some 0⟩] (by decide)).1.2.2.2.1
      ⟨1, [0, 1, 2, 3, 4], some 0⟩ (by decide) (by decide)
  · rw [(claim8_expiry_sweep [{ freshMsg 1 0 2 4 1 with isActive := true }]
      [⟨1, [0, 1, 2, 3, 4], some 0⟩] (by decide)).2.1.2.1
      [{ freshMsg 1 0 2 4 1 with isActive := true }]
      ⟨1, [0, 1, 2, 3, 4], some 0⟩ [] (by decide) (by decide)]
    rfl
  · exact (claim8_expiry_sweep [{ freshMsg 1 0 2 4 1 with isActive := true }]
      [⟨1, [0, 1, 2, 3, 4], some 0⟩] (by decide)).2.2
      [{ freshMsg 5 0 2 4 1 with isActive := true }] []
      { freshMsg 5 0 2 4 1 with isActive := true }
      (by decide) (by decide) (by decide) (by decide)

end Meshtastic
